import Mathlib

/-
Verification of the Disease-Transmission-Simulator core
(`Base Code (Simulation)/Disease Simulation.py`).

The Python source is shallowly embedded as executable Lean definitions:

* uniform draws of `random()` are a stream `u : ℕ → ℚ` of values in `[0,1)`,
  consumed at explicit positions that mirror Python's left-to-right,
  short-circuit evaluation order;
* the library sampler `random.sample` is modelled by `sampleList`, driven by a
  stream `g : ℕ → ℕ` of raw draws: it repeatedly removes a drawn element of the
  remaining population, which produces exactly the distinct-without-replacement
  results `random.sample` can produce;
* the per-day contact lists of the simulation loop (`randint(0, m)` followed by
  sampling, lines 498-509) are abstracted as an oracle `contacts : ℕ → List ℕ`
  giving the list drawn at each scan of an infectious agent; every concrete run
  of the Python code corresponds to some choice of `u`, `g` and `contacts`;
* the population (a Python tuple of mutable dicts) is a total map `ℕ → Agent`;
  indices at or beyond the population size are never touched by real runs and
  simply carry the inert default agent;
* Python `set` values are lists without duplicates; iteration order over a set
  is unspecified in Python, so set-valued loop inputs are taken as lists and
  the claims are proved for every order.
-/

namespace DiseaseSim

/-- One agent: the mutable dictionary of `newPop` (source lines 134-155).
`sociso` is present from the start with value `0`; the Python dict only gains
the key on infection, and only ever reads it for members of the infected set,
so the default is never observed. -/
structure Agent where
  state : Int
  vaccine : ℚ
  mask : ℚ
  natural_immunity : ℚ
  sociso : ℚ

/-- Inert agent used as the out-of-range default of the population map. -/
def defaultAgent : Agent :=
  { state := -1, vaccine := 0, mask := 0, natural_immunity := 0, sociso := 0 }

/-- The population: index to agent, as the Python tuple `pop`. -/
abbrev Pop := ℕ → Agent

/-- Build a population map from a list of agents. -/
def popOfList (l : List Agent) : Pop := fun i => l.getD i defaultAgent

/-- Write one agent slot (in-place dict mutation in the source). -/
def setAg (pop : Pop) (j : ℕ) (a : Agent) : Pop :=
  fun k => if k = j then a else pop k

/-- The configuration record of `readConfig` (source lines 274-279),
restricted to the homogeneous (scalar `N`) shape used by the claims;
`binnedSampleBinned` below covers the tuple-shaped sampling mode. -/
structure Config where
  N : ℕ
  I : ℕ
  m : ℕ
  de : ℕ
  di : ℕ
  tpe : ℚ
  tpi : ℚ
  rp : ℚ
  vp : ℚ
  mp : ℚ
  ap : ℚ
  ip : ℚ
  max : ℕ

/-- Embeds `flip` (source lines 22-36): `random() <= p` for a drawn value. -/
def flip (r p : ℚ) : Bool := decide (r ≤ p)

/-- Embeds `random.sample(l, k)`: draw `k` distinct elements of `l` without
replacement, the raw draws coming from `g` starting at position `t`; returns
the drawn list and the next position.  When more draws are requested than
elements remain (where `random.sample` raises `ValueError`) it stops early;
the claims only concern the in-contract case `k ≤ l.length`. -/
def sampleList (g : ℕ → ℕ) : ℕ → List ℕ → ℕ → List ℕ × ℕ
  | 0, _, t => ([], t)
  | k + 1, l, t =>
    if l = [] then ([], t)
    else
      let x := l.getD (g t % l.length) 0
      let rest := sampleList g k (l.erase x) (t + 1)
      (x :: rest.1, rest.2)

/-- Embeds `binnedSample` mode 1 (source lines 69-70): `sample(range(N), k)`. -/
def binnedSampleFlat (g : ℕ → ℕ) (k N t : ℕ) : List ℕ × ℕ :=
  sampleList g k (List.range N) t

/-- Embeds the per-bin loop of `binnedSample` mode 3 (source lines 78-86):
for each `(k, n)` pair draw `k` distinct integers from the absolute range
`[base, base + n)` and concatenate, advancing `base` by `n`. -/
def binnedBins (g : ℕ → ℕ) : List (ℕ × ℕ) → ℕ → ℕ → List ℕ × ℕ
  | [], _, t => ([], t)
  | p :: rest, base, t =>
    let s := sampleList g p.1 (List.range' base p.2) t
    let r := binnedBins g rest (base + p.2) s.2
    (s.1 ++ r.1, r.2)

/-- Embeds `binnedSample` mode 3 (source lines 77-90): tuple `k` against tuple
`N` of the same length; mismatched lengths fall into the warning branch that
returns the empty set. -/
def binnedSampleBinned (g : ℕ → ℕ) (kl Nl : List ℕ) (t : ℕ) : List ℕ × ℕ :=
  if kl.length = Nl.length then binnedBins g (kl.zip Nl) 0 t
  else ([], t)

/-- Prefix sum `sum(N[0..i))` of bin sizes: the absolute start of bin `i`. -/
def sumTo (Nl : List ℕ) (i : ℕ) : ℕ := (Nl.take i).sum

/-- Embeds the `helper` idiom `(flip(p) and random()) or 0` (source lines
121-129 and 529): adopt with probability `p` and then draw an effectiveness.
When the adopted draw is exactly `0`, Python's `or` falls through to the
integer `0`, which is numerically the same value. -/
def helperDraw (u : ℕ → ℚ) (p : ℚ) (t : ℕ) : ℚ × ℕ :=
  if flip (u t) p then (u (t + 1), t + 2) else (0, t + 1)

/-- Embeds the homogeneous population comprehension of `newPop` (source lines
147-155): `n` fresh susceptible agents, each drawing vaccine then mask
adoption/effectiveness in order. -/
def mkAgents (u : ℕ → ℚ) (vp mp : ℚ) : ℕ → ℕ → List Agent × ℕ
  | 0, t => ([], t)
  | n + 1, t =>
    let v := helperDraw u vp t
    let w := helperDraw u mp v.2
    let rest := mkAgents u vp mp n w.2
    ({ state := -1, vaccine := v.1, mask := w.1, natural_immunity := 0,
       sociso := 0 } :: rest.1, rest.2)

/-- Embeds the initial-infection loop of `newPop` (source lines 161-171): each
selected index gets `state = di + de + 1` and a social-isolation value, `0`
when the asymptomatic flip succeeds and `helper(ip)` otherwise. -/
def initInfect (cfg : Config) (u : ℕ → ℚ) : List ℕ → Pop → ℕ → Pop × ℕ
  | [], pop, t => (pop, t)
  | i :: rest, pop, t =>
    let a := pop i
    let a1 : Agent := { a with state := (cfg.di : Int) + cfg.de + 1 }
    if flip (u t) cfg.ap then
      initInfect cfg u rest (setAg pop i { a1 with sociso := 0 }) (t + 1)
    else
      let s := helperDraw u cfg.ip (t + 1)
      initInfect cfg u rest (setAg pop i { a1 with sociso := s.1 }) s.2

/-- Embeds `newPop` for a scalar population size (source lines 93-173): build
the agents, select the initial infected indices with the flat sampler, then
mark them infected.  Returns the population, the infected index list and the
next draw position. -/
def newPop (cfg : Config) (u : ℕ → ℚ) (g : ℕ → ℕ) : Pop × List ℕ × ℕ :=
  let agents := mkAgents u cfg.vp cfg.mp cfg.N 0
  let infL := (binnedSampleFlat g cfg.I cfg.N 0).1
  let pop2 := initInfect cfg u infL (popOfList agents.1) agents.2
  (pop2.1, infL, pop2.2)

/-- Embeds the body of the `update` loop for one agent (source lines 201-221):
at `state == 1` flip `1 - rp` — on success become susceptible again and gain
`min(0.9, natural_immunity + random() * 0.5)`, otherwise recover to `0`; at
`state > 1` decrement; otherwise unchanged. -/
def updateAgent (cfg : Config) (u : ℕ → ℚ) (a : Agent) (t : ℕ) : Agent × ℕ :=
  if a.state = 1 then
    if flip (u t) (1 - cfg.rp) then
      ({ a with state := -1, natural_immunity := min (9 / 10) (a.natural_immunity + u (t + 1) * (1 / 2)) }, t + 2)
    else
      ({ a with state := 0 }, t + 1)
  else if a.state > 0 then
    ({ a with state := a.state - 1 }, t)
  else (a, t)

/-- Embeds `update` (source lines 176-224) over one iteration order of the
infected set: process each index with `updateAgent` and return the population,
the surviving infected indices (`inf - drop`) and the next draw position. -/
def update (cfg : Config) (u : ℕ → ℚ) : List ℕ → Pop → ℕ → Pop × List ℕ × ℕ
  | [], pop, t => (pop, [], t)
  | i :: rest, pop, t =>
    let a := pop i
    let r := updateAgent cfg u a t
    let rec2 := update cfg u rest (setAg pop i r.1) r.2
    (rec2.1, if a.state = 1 then rec2.2.1 else i :: rec2.2.1, rec2.2.2)

/-- Embeds `susceptible` (source lines 424-429): `state == -1` and three
protection flips all fail, evaluated left to right with short-circuiting.
Returns the value and the next draw position. -/
def susceptible (pop : Pop) (u : ℕ → ℚ) (j t : ℕ) : Bool × ℕ :=
  let a := pop j
  if a.state = -1 then
    if flip (u t) a.vaccine then (false, t + 1)
    else if flip (u (t + 1)) a.mask then (false, t + 2)
    else (!flip (u (t + 2)) a.natural_immunity, t + 3)
  else (false, t)

/-- Embeds `exposed` (source lines 431-433): `di < state <= di + de`. -/
def exposed (cfg : Config) (pop : Pop) (i : ℕ) : Bool :=
  decide ((cfg.di : Int) < (pop i).state) &&
  decide ((pop i).state ≤ (cfg.di : Int) + cfg.de)

/-- Embeds `infected` (source lines 435-437): `0 < state <= di`. -/
def infected (cfg : Config) (pop : Pop) (i : ℕ) : Bool :=
  decide (0 < (pop i).state) && decide ((pop i).state ≤ (cfg.di : Int))

/-- Embeds `infectious` (source lines 439-443): `0 < state <= di + de` and the
mask and social-isolation flips both fail. -/
def infectious (cfg : Config) (pop : Pop) (u : ℕ → ℚ) (i t : ℕ) : Bool × ℕ :=
  let a := pop i
  if 0 < a.state ∧ a.state ≤ (cfg.di : Int) + cfg.de then
    if flip (u t) a.mask then (false, t + 1)
    else (!flip (u (t + 1)) a.sociso, t + 2)
  else (false, t)

/-- Embeds the transmission condition (source lines 514-516) with Python's
short-circuit evaluation order: `infectious(i) and susceptible(j) and
((exposed(i) and flip(tpe)) or (infected(i) and flip(tpi)))`. -/
def transDecide (cfg : Config) (pop : Pop) (u : ℕ → ℚ) (i j t : ℕ) :
    Bool × ℕ :=
  let bi := infectious cfg pop u i t
  if bi.1 then
    let bs := susceptible pop u j bi.2
    if bs.1 then
      if exposed cfg pop i then
        if flip (u bs.2) cfg.tpe then (true, bs.2 + 1)
        else if infected cfg pop i then (flip (u (bs.2 + 1)) cfg.tpi, bs.2 + 2)
        else (false, bs.2 + 1)
      else if infected cfg pop i then (flip (u bs.2) cfg.tpi, bs.2 + 1)
      else (false, bs.2)
    else (false, bs.2)
  else (false, bi.2)

/-- Embeds the effect of a new infection on the population (source lines 521
and 524-529): `state = di + de + 1`, then the asymptomatic flip decides
`sociso` (`0`, or `helper(ip)` when symptomatic). -/
def infectEffects (cfg : Config) (u : ℕ → ℚ) (pop : Pop) (j t : ℕ) :
    Pop × ℕ :=
  let a := pop j
  let a1 : Agent := { a with state := (cfg.di : Int) + cfg.de + 1 }
  if flip (u t) cfg.ap then (setAg pop j { a1 with sociso := 0 }, t + 1)
  else
    let s := helperDraw u cfg.ip (t + 1)
    (setAg pop j { a1 with sociso := s.1 }, s.2)

/-- Add an element to a Python-set-as-list, keeping it duplicate free. -/
def addOnce (l : List ℕ) (j : ℕ) : List ℕ := if j ∈ l then l else l ++ [j]

/-- Mutable state of one day's transmission scan (source lines 495-534):
the population, `totinf`, `ever_infected`, the day's accumulator `newinf`
and the draw position. -/
structure ScanSt where
  pop : Pop
  totinf : ℕ
  ever : List ℕ
  newinf : List ℕ
  t : ℕ

/-- Embeds one iteration of the inner contact loop (source lines 512-534):
decide transmission from `i` to `j` against the current population and, on
success, apply the infection effects and the bookkeeping
(`totinf += 1`, `ever_infected.add(j)`, `newinf.add(j)`). -/
def contactStep (cfg : Config) (u : ℕ → ℚ) (i j : ℕ) (st : ScanSt) : ScanSt :=
  if (transDecide cfg st.pop u i j st.t).1 then
    { pop := (infectEffects cfg u st.pop j
        (transDecide cfg st.pop u i j st.t).2).1,
      totinf := st.totinf + 1, ever := addOnce st.ever j,
      newinf := addOnce st.newinf j,
      t := (infectEffects cfg u st.pop j
        (transDecide cfg st.pop u i j st.t).2).2 }
  else { st with t := (transDecide cfg st.pop u i j st.t).2 }

/-- The inner contact loop of one infectious agent (source lines 512-534). -/
def contactFold (cfg : Config) (u : ℕ → ℚ) (i : ℕ) :
    List ℕ → ScanSt → ScanSt
  | [], st => st
  | j :: rest, st => contactFold cfg u i rest (contactStep cfg u i j st)

/-- Embeds the whole transmission phase (source lines 495-534): scan each
member of the day's infected snapshot, pulling its sampled contact list from
the oracle; returns the final scan state and the next oracle position. -/
def scanAgents (cfg : Config) (u : ℕ → ℚ) (contacts : ℕ → List ℕ) :
    List ℕ → ℕ → ScanSt → ScanSt × ℕ
  | [], c, st => (st, c)
  | i :: rest, c, st =>
    scanAgents cfg u contacts rest (c + 1)
      (contactFold cfg u i (contacts c) st)

/-- Modelled from the spec (section 5): a transmission-scan step in which every
read of agent state observes the frozen pre-day population `frozen` instead of
the live one.  Differences from `contactStep` exhibit that the code's scan
reads the live population. -/
def contactStepSpec (cfg : Config) (u : ℕ → ℚ) (frozen : Pop) (i j : ℕ)
    (st : ScanSt) : ScanSt :=
  if (transDecide cfg frozen u i j st.t).1 then
    { pop := (infectEffects cfg u st.pop j
        (transDecide cfg frozen u i j st.t).2).1,
      totinf := st.totinf + 1, ever := addOnce st.ever j,
      newinf := addOnce st.newinf j,
      t := (infectEffects cfg u st.pop j
        (transDecide cfg frozen u i j st.t).2).2 }
  else { st with t := (transDecide cfg frozen u i j st.t).2 }

/-- Modelled from the spec (section 5): the contact loop with frozen reads. -/
def contactFoldSpec (cfg : Config) (u : ℕ → ℚ) (frozen : Pop) (i : ℕ) :
    List ℕ → ScanSt → ScanSt
  | [], st => st
  | j :: rest, st =>
    contactFoldSpec cfg u frozen i rest (contactStepSpec cfg u frozen i j st)

/-- Modelled from the spec (section 5): the transmission phase with frozen
reads of agent state. -/
def scanAgentsSpec (cfg : Config) (u : ℕ → ℚ) (frozen : Pop)
    (contacts : ℕ → List ℕ) : List ℕ → ℕ → ScanSt → ScanSt × ℕ
  | [], c, st => (st, c)
  | i :: rest, c, st =>
    scanAgentsSpec cfg u frozen contacts rest (c + 1)
      (contactFoldSpec cfg u frozen i (contacts c) st)

/-- Python set union `inf.update(newinf)` (source line 537) on duplicate-free
lists: append the genuinely new members. -/
def setUnion (a b : List ℕ) : List ℕ :=
  a ++ b.filter (fun j => decide (j ∉ a))

/-- State of the simulation loop between days (source lines 455-467). -/
structure SimSt where
  pop : Pop
  infL : List ℕ
  totinf : ℕ
  ever : List ℕ
  curve : List ℕ
  extinct : Bool
  t : ℕ
  c : ℕ

/-- Embeds the initialisation of `sim` (source lines 455-463): fresh
population, `totinf = len(inf)`, `ever_infected = set(inf)`,
`curve = [totinf]`. -/
def simInit (cfg : Config) (u : ℕ → ℚ) (g : ℕ → ℕ) : SimSt :=
  let r := newPop cfg u g
  { pop := r.1, infL := r.2.1, totinf := r.2.1.length, ever := r.2.1,
    curve := [r.2.1.length], extinct := false, t := r.2.2, c := 0 }

/-- One day's transmission phase as invoked by the simulation loop (source
lines 494-534): scan the infected set surviving `update`, starting from the
updated population, the running counters and an empty accumulator. -/
def dayScan (cfg : Config) (u : ℕ → ℚ) (contacts : ℕ → List ℕ) (st : SimSt) :
    ScanSt × ℕ :=
  scanAgents cfg u contacts (update cfg u st.infL st.pop st.t).2.1 st.c
    ⟨(update cfg u st.infL st.pop st.t).1, st.totinf, st.ever, [],
      (update cfg u st.infL st.pop st.t).2.2⟩

/-- The state at the next day boundary when the epidemic continues (source
lines 494-538): scan results plus the merge `inf.update(newinf)`. -/
def dayMerge (cfg : Config) (u : ℕ → ℚ) (contacts : ℕ → List ℕ) (st : SimSt) :
    SimSt :=
  { pop := (dayScan cfg u contacts st).1.pop,
    infL := setUnion (update cfg u st.infL st.pop st.t).2.1
      (dayScan cfg u contacts st).1.newinf,
    totinf := (dayScan cfg u contacts st).1.totinf,
    ever := (dayScan cfg u contacts st).1.ever,
    curve := st.curve ++ [(update cfg u st.infL st.pop st.t).2.1.length],
    extinct := false,
    t := (dayScan cfg u contacts st).1.t,
    c := (dayScan cfg u contacts st).2 }

/-- The terminal state of the `curve[-1] == 0` break (source lines 473-492):
the day's zero count is recorded and the run stops as extinguished. -/
def dayExtinct (cfg : Config) (u : ℕ → ℚ) (st : SimSt) : SimSt :=
  { pop := (update cfg u st.infL st.pop st.t).1,
    infL := (update cfg u st.infL st.pop st.t).2.1,
    totinf := st.totinf, ever := st.ever,
    curve := st.curve ++ [(update cfg u st.infL st.pop st.t).2.1.length],
    extinct := true,
    t := (update cfg u st.infL st.pop st.t).2.2,
    c := st.c }

/-- Embeds the main `while rounds < max` loop of `sim` (source lines 464-538):
each day runs `update`, appends the active count to the curve, stops as
extinguished on a zero count, and otherwise runs the transmission scan and
merges the day's new infections into the infected set.  `fuel` is the number
of remaining rounds; exhausting it is the `persists` exit of the `while-else`.
-/
def simLoop (cfg : Config) (u : ℕ → ℚ) (contacts : ℕ → List ℕ) :
    ℕ → SimSt → SimSt
  | 0, st => st
  | fuel + 1, st =>
    if (update cfg u st.infL st.pop st.t).2.1.length = 0 then
      dayExtinct cfg u st
    else simLoop cfg u contacts fuel (dayMerge cfg u contacts st)

/-- Embeds `sim` (source lines 380-558) for a homogeneous population, without
the out-of-scope printing and plotting. -/
def sim (cfg : Config) (u : ℕ → ℚ) (g : ℕ → ℕ) (contacts : ℕ → List ℕ) :
    SimSt :=
  simLoop cfg u contacts cfg.max (simInit cfg u g)

/-- The infected-set invariant of the spec (section 3): the maintained index
set holds no duplicates and contains exactly the indices whose state is
positive. -/
def InfInv (pop : Pop) (infL : List ℕ) : Prop :=
  infL.Nodup ∧ ∀ i : ℕ, i ∈ infL ↔ (pop i).state > 0

/-- Constant draw stream one half: every flip against probability `p < 1/2`
fails and every flip against `p ≥ 1/2` succeeds. -/
def uHalf : ℕ → ℚ := fun _ => 1 / 2

/-- Draw stream that returns exactly `0`: the boundary case of `flip`. -/
def uZero : ℕ → ℚ := fun _ => 0

/-- Constant draw stream one: every flip against probability `1` succeeds and
every flip against a probability below `1` fails. -/
def uOne : ℕ → ℚ := fun _ => 1

/-- Constant raw sampler stream. -/
def gZero : ℕ → ℕ := fun _ => 0

/-- Contact oracle with no contacts on any day. -/
def noContacts : ℕ → List ℕ := fun _ => []

/-- Contact oracle in which every infectious agent meets agent `2`. -/
def ctsTwo : ℕ → List ℕ := fun _ => [2]

/-- An agent on the last infectious day with no protections. -/
def sickAgent : Agent :=
  { state := 1, vaccine := 0, mask := 0, natural_immunity := 0, sociso := 0 }

/-- Configuration of the concrete run refuting the frozen-reads description:
two symptomatic agents, guaranteed symptomatic transmission, no protections.
-/
def cfgC5 : Config :=
  { N := 3, I := 2, m := 1, de := 0, di := 1, tpe := 0, tpi := 1, rp := 0,
    vp := 0, mp := 0, ap := 1, ip := 0, max := 5 }

/-- Population of that run: agents 0 and 1 infectious, agent 2 susceptible. -/
def popC5 : Pop := popOfList [sickAgent, sickAgent, defaultAgent]

/-- Configuration with no initially infected agent (`I = 0`). -/
def cfgC6 : Config :=
  { N := 1, I := 0, m := 0, de := 1, di := 1, tpe := 0, tpi := 0, rp := 0,
    vp := 0, mp := 0, ap := 0, ip := 0, max := 1 }

/-- The single-case deterministic scenario of the spec (section 8): one
initial infection, `di = 5`, `de = 3`, `rp = 1`, all transmission off. -/
def cfgC7 : Config :=
  { N := 2, I := 1, m := 4, de := 3, di := 5, tpe := 0, tpi := 0, rp := 1,
    vp := 0, mp := 0, ap := 0, ip := 0, max := 9 }

/-- Relation between a scan state and the data at the start of the day's
transmission phase (`pop0`, `tot0`, `ever0`): the accumulator `newinf` is
duplicate free and counts exactly the day's `totinf` increments; its members
were overwritten in the live population from pre-scan state `-1` to
`di + de + 1`; every agent outside it is untouched; `natural_immunity` is
untouched everywhere; and `ever_infected` stays duplicate free and grows by
at most the number of transmission events. -/
def ScanInv (cfg : Config) (pop0 : Pop) (tot0 : ℕ) (ever0 : List ℕ)
    (st : ScanSt) : Prop :=
  st.newinf.Nodup ∧
  st.totinf = tot0 + st.newinf.length ∧
  (∀ j, j ∈ st.newinf →
    (pop0 j).state = -1 ∧ (st.pop j).state = (cfg.di : Int) + cfg.de + 1) ∧
  (∀ j, j ∉ st.newinf → st.pop j = pop0 j) ∧
  (∀ j, (st.pop j).natural_immunity = (pop0 j).natural_immunity) ∧
  (ever0.Nodup → st.ever.Nodup) ∧
  st.ever.length + tot0 ≤ ever0.length + st.totinf

/-- What actually holds of one day's transmission scan started with an empty
accumulator (the amended form of claim C5): new-infection state writes are
applied to the shared, live population immediately — not deferred to a
private per-day buffer — and precisely because of that a target is never
infected twice in one day: the accumulator is duplicate free, `totinf` grows
by exactly its size, each accumulator member went from pre-scan state `-1` to
`di + de + 1` in the live population, and every agent outside the accumulator
is untouched; only membership of the infected index set is deferred to the
end-of-day merge. -/
def ScanClaim (cfg : Config) (u : ℕ → ℚ) (contacts : ℕ → List ℕ)
    (l : List ℕ) (c : ℕ) (pop : Pop) (tot : ℕ) (ever : List ℕ) (t : ℕ) :
    Prop :=
  (scanAgents cfg u contacts l c ⟨pop, tot, ever, [], t⟩).1.newinf.Nodup ∧
  (scanAgents cfg u contacts l c ⟨pop, tot, ever, [], t⟩).1.totinf =
    tot + (scanAgents cfg u contacts l c ⟨pop, tot, ever, [], t⟩).1.newinf.length ∧
  (∀ j, j ∈ (scanAgents cfg u contacts l c ⟨pop, tot, ever, [], t⟩).1.newinf →
    (pop j).state = -1 ∧
    ((scanAgents cfg u contacts l c ⟨pop, tot, ever, [], t⟩).1.pop j).state =
      (cfg.di : Int) + cfg.de + 1) ∧
  (∀ j, j ∉ (scanAgents cfg u contacts l c ⟨pop, tot, ever, [], t⟩).1.newinf →
    (scanAgents cfg u contacts l c ⟨pop, tot, ever, [], t⟩).1.pop j = pop j)

/-- Monotone-immunity contract of claim C8: a daily `update` never lowers any
agent's `natural_immunity` and keeps it within `[0, 0.9]` (given it starts
there); the transmission scan never touches `natural_immunity`; the freshly
created population starts at `0`; and at the end of a full run every agent's
`natural_immunity` still lies within `[0, 0.9]`. -/
def ImmunityClaim (cfg : Config) (u : ℕ → ℚ) (g : ℕ → ℕ)
    (contacts : ℕ → List ℕ) (l il : List ℕ) (pop : Pop) (t c : ℕ)
    (sts : ScanSt) : Prop :=
  ((∀ i, 0 ≤ (pop i).natural_immunity ∧ (pop i).natural_immunity ≤ 9 / 10) →
    ∀ i, (pop i).natural_immunity ≤
        ((update cfg u l pop t).1 i).natural_immunity ∧
      0 ≤ ((update cfg u l pop t).1 i).natural_immunity ∧
      ((update cfg u l pop t).1 i).natural_immunity ≤ 9 / 10) ∧
  (∀ i, ((scanAgents cfg u contacts il c sts).1.pop i).natural_immunity =
    (sts.pop i).natural_immunity) ∧
  (∀ i, ((simInit cfg u g).pop i).natural_immunity = 0) ∧
  (∀ i, 0 ≤ ((sim cfg u g contacts).pop i).natural_immunity ∧
    ((sim cfg u g contacts).pop i).natural_immunity ≤ 9 / 10)

/-- The infected-set consistency contract of claim C3: the invariant
`InfInv` — the maintained infected index set equals exactly the indices of
positive state — holds after population creation, is preserved by every call
to `update`, is preserved by every day's transmission scan followed by the
end-of-day merge of the new-infection accumulator, and therefore holds at the
day boundary reached at the end of a full run. -/
def InfectedSetClaim (cfg : Config) (u : ℕ → ℚ) (g : ℕ → ℕ)
    (contacts : ℕ → List ℕ) (l : List ℕ) (pop : Pop) (t c tot : ℕ)
    (ever : List ℕ) : Prop :=
  InfInv (newPop cfg u g).1 (newPop cfg u g).2.1 ∧
  (InfInv pop l →
    InfInv (update cfg u l pop t).1 (update cfg u l pop t).2.1) ∧
  (InfInv pop l →
    InfInv (scanAgents cfg u contacts l c ⟨pop, tot, ever, [], t⟩).1.pop
      (setUnion l
        (scanAgents cfg u contacts l c ⟨pop, tot, ever, [], t⟩).1.newinf)) ∧
  InfInv (sim cfg u g contacts).pop (sim cfg u g contacts).infL

/-- Terminal-state contract of claim C6 (amended to runs with at least one
initially infected agent): the run ends in the extinguished terminal state
exactly when some curve entry equals `0`, and every curve entry other than
the final one is nonzero — so a zero entry, if any, is the last element and
no further days are produced after it. -/
def CurveClaim (cfg : Config) (u : ℕ → ℚ) (g : ℕ → ℕ)
    (contacts : ℕ → List ℕ) : Prop :=
  ((sim cfg u g contacts).extinct = true ↔
    0 ∈ (sim cfg u g contacts).curve) ∧
  (∀ d, d + 1 < (sim cfg u g contacts).curve.length →
    (sim cfg u g contacts).curve.getD d 1 ≠ 0)

/-- Single-case scenario contract of claim C7 (amended): with all
transmission probabilities zero the run is a single-case epidemic — the curve
is nine `1` entries (the day-0 snapshot at `state = di+de+1` plus the
`de + di = 8` countdown days) followed by the extinguishing `0`, with
`totinf = 1`, one ever-infected agent and zero reinfections. -/
def SingleCaseClaim (cfg : Config) (u : ℕ → ℚ) (g : ℕ → ℕ)
    (contacts : ℕ → List ℕ) : Prop :=
  (sim cfg u g contacts).curve = List.replicate 9 1 ++ [0] ∧
  (sim cfg u g contacts).totinf = 1 ∧
  (sim cfg u g contacts).ever.length = 1 ∧
  (sim cfg u g contacts).totinf - (sim cfg u g contacts).ever.length = 0 ∧
  (sim cfg u g contacts).extinct = true

/-- Counter contract of claim C10: `totinf` and the ever-infected set start
out equal (both are the initial infected set's size), each transmission event
increments `totinf` by one while inserting at most one new index into the
duplicate-free ever-infected set, and at the end of a run
`totinf ≥ |ever_infected|` — so the derived reinfection count
`totinf - |ever_infected|` is never negative. -/
def CounterClaim (cfg : Config) (u : ℕ → ℚ) (g : ℕ → ℕ)
    (contacts : ℕ → List ℕ) (i j : ℕ) (st : ScanSt) : Prop :=
  ((simInit cfg u g).totinf = (simInit cfg u g).ever.length) ∧
  (st.ever.Nodup → st.ever.length ≤ st.totinf →
    (contactStep cfg u i j st).ever.Nodup ∧
    (contactStep cfg u i j st).ever.length ≤
      (contactStep cfg u i j st).totinf) ∧
  (sim cfg u g contacts).ever.Nodup ∧
  (sim cfg u g contacts).ever.length ≤ (sim cfg u g contacts).totinf

/-- The contract of `binnedSample` mode (c) stated by claim C4: the result is
duplicate free with exactly `sum k` elements, every element lies in
`[0, sum N)`, and it is the concatenation of per-bin chunks, chunk `i` holding
exactly `k[i]` distinct integers of the absolute bin range
`[sum N[0..i), sum N[0..i) + N[i])` — a disjoint union by construction. -/
def BinnedClaim (g : ℕ → ℕ) (kl Nl : List ℕ) (t : ℕ) : Prop :=
  (binnedSampleBinned g kl Nl t).1.Nodup ∧
  (binnedSampleBinned g kl Nl t).1.length = kl.sum ∧
  (∀ x ∈ (binnedSampleBinned g kl Nl t).1, x < Nl.sum) ∧
  ∃ chunks : List (List ℕ),
    (binnedSampleBinned g kl Nl t).1 = chunks.flatten ∧
    chunks.length = kl.length ∧
    ∀ i, i < kl.length →
      (chunks.getD i []).length = kl.getD i 0 ∧
      (chunks.getD i []).Nodup ∧
      ∀ x ∈ chunks.getD i [],
        sumTo Nl i ≤ x ∧ x < sumTo Nl i + Nl.getD i 0

/-- Raw sampler stream used by the C4 witness. -/
def gC4 : ℕ → ℕ := fun n => n * 3 + 1

/-- The per-agent contract of `update` stated by claim C2, for the agent at
index `i` of the processed infected set: at `state = 1` the agent leaves the
returned set and, depending on the `1 - rp` flip at its own draw position
`ti`, either becomes susceptible again with
`natural_immunity = min(0.9, old + U)` for the fresh draw `U = u (ti+1) * 1/2`
lying in `[0, 1/2)`, or recovers to state `0` with `natural_immunity`
unchanged; at `state > 1` the state is decremented by exactly one, the agent
stays in the returned set, and `natural_immunity` is unchanged. -/
def UpdatePointClaim (cfg : Config) (u : ℕ → ℚ) (l : List ℕ) (pop : Pop)
    (t i : ℕ) : Prop :=
  ∃ ti : ℕ,
    ((pop i).state = 1 →
      i ∉ (update cfg u l pop t).2.1 ∧
      (flip (u ti) (1 - cfg.rp) = true →
        ((update cfg u l pop t).1 i).state = -1 ∧
        ((update cfg u l pop t).1 i).natural_immunity =
          min (9 / 10) ((pop i).natural_immunity + u (ti + 1) * (1 / 2)) ∧
        0 ≤ u (ti + 1) * (1 / 2) ∧ u (ti + 1) * (1 / 2) < 1 / 2) ∧
      (flip (u ti) (1 - cfg.rp) = false →
        ((update cfg u l pop t).1 i).state = 0 ∧
        ((update cfg u l pop t).1 i).natural_immunity =
          (pop i).natural_immunity)) ∧
    ((pop i).state > 1 →
      i ∈ (update cfg u l pop t).2.1 ∧
      ((update cfg u l pop t).1 i).state = (pop i).state - 1 ∧
      ((update cfg u l pop t).1 i).natural_immunity =
        (pop i).natural_immunity)

theorem setAg_self (pop : Pop) (j : ℕ) (a : Agent) : setAg pop j a j = a := by
  simp [setAg]

theorem setAg_ne (pop : Pop) (j k : ℕ) (a : Agent) (h : k ≠ j) :
    setAg pop j a k = pop k := by
  simp [setAg, h]

theorem flip_zero_of_pos {r : ℚ} (h : 0 < r) : flip r 0 = false := by
  simp [flip]
  linarith

theorem addOnce_mem_self (l : List ℕ) (j : ℕ) : j ∈ addOnce l j := by
  unfold addOnce
  split <;> simp [*]

theorem infectEffects_state_self (cfg : Config) (u : ℕ → ℚ) (pop : Pop)
    (j t : ℕ) :
    ((infectEffects cfg u pop j t).1 j).state = (cfg.di : Int) + cfg.de + 1 := by
  unfold infectEffects
  split <;> simp [setAg_self]

theorem exposed_not_infected (cfg : Config) (pop : Pop) (i : ℕ)
    (h : exposed cfg pop i = true) : infected cfg pop i = false := by
  simp only [exposed, Bool.and_eq_true, decide_eq_true_eq] at h
  simp only [infected, Bool.and_eq_false_iff, decide_eq_false_iff_not, not_lt,
    not_le]
  omega

/-- Characterisation of the short-circuit transmission condition of source
lines 514-516 in terms of the four predicates at their draw positions. -/
theorem transDecide_spec (cfg : Config) (pop : Pop) (u : ℕ → ℚ) (i j t : ℕ) :
    (transDecide cfg pop u i j t).1 = true ↔
      ((infectious cfg pop u i t).1 = true ∧
       (susceptible pop u j (infectious cfg pop u i t).2).1 = true ∧
       ((exposed cfg pop i = true ∧
           flip (u (susceptible pop u j (infectious cfg pop u i t).2).2)
             cfg.tpe = true) ∨
        (infected cfg pop i = true ∧
           flip (u (susceptible pop u j (infectious cfg pop u i t).2).2)
             cfg.tpi = true))) := by
  simp only [transDecide]
  by_cases hbi : (infectious cfg pop u i t).1 = true
  · by_cases hbs : (susceptible pop u j (infectious cfg pop u i t).2).1 = true
    · by_cases hex : exposed cfg pop i = true
      · have hni := exposed_not_infected cfg pop i hex
        by_cases htpe :
            flip (u (susceptible pop u j (infectious cfg pop u i t).2).2)
              cfg.tpe = true
        · simp [hbi, hbs, hex, htpe]
        · simp [hbi, hbs, hex, htpe, hni]
      · by_cases hinf : infected cfg pop i = true <;>
          simp [hbi, hbs, hex, hinf]
    · simp [hbi, hbs]
  · simp [hbi]

/-- C1 (confirmed): during a day's transmission scan, the transmission event
for source `i` and sampled contact `j` — the target state set to
`di + de + 1`, `j` added to the day's accumulator, `totinf` incremented, and
`j` added to the ever-infected set — occurs exactly when `infectious(i)`
holds, `susceptible(j)` holds, and either `exposed(i)` with a successful
Bernoulli trial at rate `tpe` or `infected(i)` with a successful trial at rate
`tpi`; each trial reads its own fresh draw position of the stream. -/
theorem C1_transmission_event_iff (cfg : Config) (u : ℕ → ℚ) (i j : ℕ)
    (st : ScanSt) :
    ((contactStep cfg u i j st).totinf = st.totinf + 1 ∧
     ((contactStep cfg u i j st).pop j).state = (cfg.di : Int) + cfg.de + 1 ∧
     j ∈ (contactStep cfg u i j st).newinf ∧
     j ∈ (contactStep cfg u i j st).ever) ↔
      ((infectious cfg st.pop u i st.t).1 = true ∧
       (susceptible st.pop u j (infectious cfg st.pop u i st.t).2).1 = true ∧
       ((exposed cfg st.pop i = true ∧
           flip (u (susceptible st.pop u j
               (infectious cfg st.pop u i st.t).2).2) cfg.tpe = true) ∨
        (infected cfg st.pop i = true ∧
           flip (u (susceptible st.pop u j
               (infectious cfg st.pop u i st.t).2).2) cfg.tpi = true))) := by
  rw [← transDecide_spec cfg st.pop u i j st.t]
  unfold contactStep
  by_cases hb : (transDecide cfg st.pop u i j st.t).1 = true
  · simp [hb, infectEffects_state_self, addOnce_mem_self]
  · simp [hb]

/-- C9 (counterexample): an unprotected susceptible agent (state `-1`, all
three effectiveness values `0`) is nonetheless blocked on the random stream
that draws exactly `0`, because `flip` tests `random() <= p` and `0 <= 0`
holds; so `susceptible(j)` does not hold for every random stream. -/
theorem C9_counterexample :
    ((popOfList [defaultAgent]) 0).state = -1 ∧
    ((popOfList [defaultAgent]) 0).vaccine = 0 ∧
    ((popOfList [defaultAgent]) 0).mask = 0 ∧
    ((popOfList [defaultAgent]) 0).natural_immunity = 0 ∧
    (susceptible (popOfList [defaultAgent]) uZero 0 0).1 = false := by
  refine ⟨rfl, rfl, rfl, rfl, rfl⟩

/-- C9 (amended): a zero-valued protection never blocks an exposure as long as
no uniform draw is exactly `0`: for every agent `j` with `state = -1` and
`vaccine = mask = natural_immunity = 0`, and every random stream of strictly
positive draws, `susceptible(j)` holds.  (A draw of exactly `0` — a
probability-zero event of the real `random()` — makes the `<=` test of `flip`
succeed and blocks the exposure.) -/
theorem C9_zero_protection_never_blocks (pop : Pop) (u : ℕ → ℚ) (j t : ℕ)
    (hs : (pop j).state = -1) (hv : (pop j).vaccine = 0)
    (hm : (pop j).mask = 0) (hn : (pop j).natural_immunity = 0)
    (hu : ∀ n, 0 < u n) :
    (susceptible pop u j t).1 = true := by
  simp [susceptible, hs, hv, hm, hn, flip_zero_of_pos (hu t),
    flip_zero_of_pos (hu (t + 1)), flip_zero_of_pos (hu (t + 2))]

/-- C9 witness: the amended theorem applied to a concrete unprotected agent
and the constant stream of draws `1/2`. -/
theorem C9_witness :
    (susceptible (popOfList [defaultAgent]) uHalf 0 0).1 = true :=
  C9_zero_protection_never_blocks (popOfList [defaultAgent]) uHalf 0 0
    rfl rfl rfl rfl (fun _ => by norm_num [uHalf])

theorem update_frame (cfg : Config) (u : ℕ → ℚ) (l : List ℕ) (pop : Pop)
    (t i : ℕ) (h : i ∉ l) : (update cfg u l pop t).1 i = pop i := by
  induction l generalizing pop t with
  | nil => rfl
  | cons a rest ih =>
    simp only [List.mem_cons, not_or] at h
    simp only [update]
    rw [ih _ _ h.2, setAg_ne _ _ _ _ h.1]

theorem update_keep_sublist (cfg : Config) (u : ℕ → ℚ) (l : List ℕ)
    (pop : Pop) (t : ℕ) : (update cfg u l pop t).2.1.Sublist l := by
  induction l generalizing pop t with
  | nil => simp [update]
  | cons a rest ih =>
    simp only [update]
    split
    · exact (ih _ _).cons a
    · exact (ih _ _).cons₂ a

/-- Pointwise description of `update`: each member of a duplicate-free
infected set is transformed by `updateAgent` at some draw position, and stays
in the returned set exactly when its state was not `1`. -/
theorem update_point_spec (cfg : Config) (u : ℕ → ℚ) (l : List ℕ) (pop : Pop)
    (t i : ℕ) (hnd : l.Nodup) (hi : i ∈ l) :
    ∃ ti : ℕ, (update cfg u l pop t).1 i = (updateAgent cfg u (pop i) ti).1 ∧
      (i ∈ (update cfg u l pop t).2.1 ↔ (pop i).state ≠ 1) := by
  induction l generalizing pop t with
  | nil => cases hi
  | cons a rest ih =>
    have hnd2 := List.nodup_cons.mp hnd
    rcases List.mem_cons.mp hi with rfl | hmem
    · refine ⟨t, ?_, ?_⟩
      · simp only [update]
        rw [update_frame _ _ _ _ _ _ hnd2.1, setAg_self]
      · simp only [update]
        by_cases h1 : (pop i).state = 1
        · rw [if_pos h1]
          simp only [h1, ne_eq, not_true_eq_false, iff_false]
          intro hc
          exact hnd2.1 ((update_keep_sublist cfg u rest _ _).mem hc)
        · simp [h1]
    · have hne : i ≠ a := fun h => hnd2.1 (h ▸ hmem)
      obtain ⟨ti, h1, h2⟩ :=
        ih (setAg pop a (updateAgent cfg u (pop a) t).1)
          (updateAgent cfg u (pop a) t).2 hnd2.2 hmem
      rw [setAg_ne _ _ _ _ hne] at h1 h2
      refine ⟨ti, ?_, ?_⟩
      · simp only [update]
        exact h1
      · simp only [update]
        split
        · exact h2
        · simpa [hne] using h2

/-- C2 (confirmed): for every agent index `i` in the (duplicate-free) infected
set passed to `update`, with uniform draws in `[0,1)`: if `state[i] = 1` the
agent is removed from the returned set and — on the `1 - rp` flip at its own
draw position — either becomes susceptible (`state = -1`) gaining
`min(0.9, natural_immunity + U)` for a fresh draw `U` in `[0, 1/2)`, or
recovers (`state = 0`) with `natural_immunity` unchanged; if `state[i] > 1`
it is decremented by exactly `1` and kept. -/
theorem C2_update_per_agent (cfg : Config) (u : ℕ → ℚ) (l : List ℕ)
    (pop : Pop) (t i : ℕ) (hnd : l.Nodup) (hi : i ∈ l)
    (hu : ∀ n, 0 ≤ u n ∧ u n < 1) :
    UpdatePointClaim cfg u l pop t i := by
  obtain ⟨ti, hv, hm⟩ := update_point_spec cfg u l pop t i hnd hi
  have hU0 : 0 ≤ u (ti + 1) * (1 / 2) :=
    mul_nonneg (hu (ti + 1)).1 (by norm_num)
  have hU1 : u (ti + 1) * (1 / 2) < 1 / 2 := by
    have h2 := (hu (ti + 1)).2
    nlinarith
  refine ⟨ti, ?_, ?_⟩
  · intro h1
    refine ⟨fun hc => (hm.mp hc) h1, ?_, ?_⟩
    · intro hflip
      rw [hv]
      refine ⟨?_, ?_, hU0, hU1⟩ <;> simp [updateAgent, h1, hflip]
    · intro hflip
      rw [hv]
      simp [updateAgent, h1, hflip]
  · intro hgt
    have hne : (pop i).state ≠ 1 := by omega
    have hpos : (pop i).state > 0 := by omega
    refine ⟨hm.mpr hne, ?_, ?_⟩ <;>
      · rw [hv]
        simp [updateAgent, hne, hpos]

/-- C2 witness: the theorem applied to a one-agent infected set whose agent is
on the last infectious day, with the constant draw stream `1/2`. -/
theorem C2_witness :
    UpdatePointClaim cfgC7 uHalf [0] (popOfList [sickAgent]) 0 0 :=
  C2_update_per_agent cfgC7 uHalf [0] (popOfList [sickAgent]) 0 0
    (by simp) (by simp) (fun _ => by norm_num [uHalf])

theorem sumTo_zero (l : List ℕ) : sumTo l 0 = 0 := by
  simp [sumTo]

theorem sumTo_cons_succ (a : ℕ) (l : List ℕ) (i : ℕ) :
    sumTo (a :: l) (i + 1) = a + sumTo l i := by
  simp [sumTo, List.take_succ_cons]

theorem sampleList_getD_mem {l : List ℕ} (hl : l ≠ []) (g : ℕ → ℕ) (t : ℕ) :
    l.getD (g t % l.length) 0 ∈ l := by
  have hlen : 0 < l.length := List.length_pos.mpr hl
  have hidx : g t % l.length < l.length := Nat.mod_lt _ hlen
  rw [List.getD_eq_getElem l 0 hidx]
  exact List.getElem_mem hidx

theorem sampleList_subset (g : ℕ → ℕ) (k : ℕ) (l : List ℕ) (t : ℕ) :
    ∀ x ∈ (sampleList g k l t).1, x ∈ l := by
  induction k generalizing l t with
  | zero =>
    intro x hx
    simp [sampleList] at hx
  | succ k ih =>
    intro x hx
    by_cases hl : l = []
    · simp [sampleList, hl] at hx
    · simp only [sampleList, if_neg hl] at hx
      rcases List.mem_cons.mp hx with rfl | hx2
      · exact sampleList_getD_mem hl g t
      · exact List.mem_of_mem_erase (ih _ _ x hx2)

theorem sampleList_length (g : ℕ → ℕ) (k : ℕ) (l : List ℕ) (t : ℕ)
    (h : k ≤ l.length) : (sampleList g k l t).1.length = k := by
  induction k generalizing l t with
  | zero => simp [sampleList]
  | succ k ih =>
    have hl : l ≠ [] := by
      intro he
      rw [he] at h
      simp at h
    have hlen : (l.erase (l.getD (g t % l.length) 0)).length = l.length - 1 :=
      List.length_erase_of_mem (sampleList_getD_mem hl g t)
    simp only [sampleList, if_neg hl, List.length_cons]
    rw [ih _ _ (by omega)]

theorem sampleList_nodup (g : ℕ → ℕ) (k : ℕ) (l : List ℕ) (t : ℕ)
    (hnd : l.Nodup) : (sampleList g k l t).1.Nodup := by
  induction k generalizing l t with
  | zero => simp [sampleList]
  | succ k ih =>
    by_cases hl : l = []
    · simp [sampleList, hl]
    · simp only [sampleList, if_neg hl, List.nodup_cons]
      refine ⟨?_, ih _ _ (List.Nodup.erase _ hnd)⟩
      intro hc
      exact (hnd.mem_erase_iff.mp (sampleList_subset g k _ _ _ hc)).1 rfl

/-- Per-bin description of the mode (c) sampling loop, generalised over the
running base offset. -/
theorem binnedBins_spec (g : ℕ → ℕ) (ps : List (ℕ × ℕ)) (base t : ℕ)
    (h : ∀ p ∈ ps, p.1 ≤ p.2) :
    (binnedBins g ps base t).1.Nodup ∧
    (binnedBins g ps base t).1.length = (ps.map Prod.fst).sum ∧
    (∀ x ∈ (binnedBins g ps base t).1,
      base ≤ x ∧ x < base + (ps.map Prod.snd).sum) ∧
    ∃ chunks : List (List ℕ),
      (binnedBins g ps base t).1 = chunks.flatten ∧
      chunks.length = ps.length ∧
      ∀ i, i < ps.length →
        (chunks.getD i []).length = (ps.getD i (0, 0)).1 ∧
        (chunks.getD i []).Nodup ∧
        ∀ x ∈ chunks.getD i [],
          base + sumTo (ps.map Prod.snd) i ≤ x ∧
          x < base + sumTo (ps.map Prod.snd) i + (ps.getD i (0, 0)).2 := by
  induction ps generalizing base t with
  | nil =>
    refine ⟨by simp [binnedBins], by simp [binnedBins],
      by simp [binnedBins], [], by simp [binnedBins], by simp, ?_⟩
    intro i hi
    simp at hi
  | cons p rest ih =>
    have hp : p.1 ≤ p.2 := h p (List.mem_cons_self p rest)
    have hrest : ∀ q ∈ rest, q.1 ≤ q.2 := fun q hq => h q (List.mem_cons_of_mem p hq)
    have hslen : (sampleList g p.1 (List.range' base p.2) t).1.length = p.1 :=
      sampleList_length _ _ _ _ (by rw [List.length_range']; exact hp)
    have hsnd : (sampleList g p.1 (List.range' base p.2) t).1.Nodup :=
      sampleList_nodup _ _ _ _ (List.nodup_range' base p.2)
    have hsmem : ∀ x ∈ (sampleList g p.1 (List.range' base p.2) t).1,
        base ≤ x ∧ x < base + p.2 := by
      intro x hx
      exact List.mem_range'_1.mp (sampleList_subset _ _ _ _ x hx)
    obtain ⟨rnd, rlen, rmem, chunks, hjoin, hclen, hcspec⟩ :=
      ih (base + p.2) (sampleList g p.1 (List.range' base p.2) t).2 hrest
    refine ⟨?_, ?_, ?_, (sampleList g p.1 (List.range' base p.2) t).1 :: chunks,
      ?_, ?_, ?_⟩
    · simp only [binnedBins]
      refine List.Nodup.append hsnd rnd (List.disjoint_left.mpr ?_)
      intro x hx hc
      have h1 := (hsmem x hx).2
      have h2 := (rmem x hc).1
      omega
    · simp only [binnedBins, List.length_append, List.map_cons, List.sum_cons,
        hslen, rlen]
    · simp only [binnedBins, List.mem_append, List.map_cons, List.sum_cons]
      intro x hx
      rcases hx with hx | hx
      · have := hsmem x hx
        omega
      · have := rmem x hx
        omega
    · simp only [binnedBins]
      rw [hjoin, List.flatten_cons]
    · simp [hclen]
    · intro i hi
      cases i with
      | zero =>
        simp only [List.getD_cons_zero, List.map_cons, sumTo_zero]
        refine ⟨hslen, hsnd, ?_⟩
        intro x hx
        have := hsmem x hx
        omega
      | succ i =>
        have hi2 : i < rest.length := by simpa using hi
        obtain ⟨hl2, hn2, hm2⟩ := hcspec i hi2
        refine ⟨by simpa using hl2, by simpa using hn2, ?_⟩
        intro x hx
        have := hm2 x (by simpa using hx)
        simp only [List.map_cons, sumTo_cons_succ, List.getD_cons_succ]
        omega

/-- C4 (confirmed): for equal-length count and bin-size tuples with
`k[i] ≤ N[i]` everywhere, `binnedSample` mode (c) returns a duplicate-free
disjoint union over bins, bin `i` contributing exactly `k[i]` distinct
integers of its absolute range `[sum N[0..i), sum N[0..i+1))`, so the result
has exactly `sum k` elements, all within `[0, sum N)`. -/
theorem C4_binnedSample_mode_c (g : ℕ → ℕ) (kl Nl : List ℕ) (t : ℕ)
    (hlen : kl.length = Nl.length)
    (hk : ∀ i, i < kl.length → kl.getD i 0 ≤ Nl.getD i 0) :
    BinnedClaim g kl Nl t := by
  have hz1 : (kl.zip Nl).length = kl.length := by
    rw [List.length_zip, hlen, Nat.min_self]
  have hgetD : ∀ i, i < kl.length →
      (kl.zip Nl).getD i (0, 0) = (kl.getD i 0, Nl.getD i 0) := by
    intro i hi
    have h1 : i < (kl.zip Nl).length := by omega
    have h2 : i < Nl.length := by omega
    rw [List.getD_eq_getElem _ _ h1, List.getD_eq_getElem _ _ hi,
      List.getD_eq_getElem _ _ h2, List.getElem_zip]
  have hpair : ∀ p ∈ kl.zip Nl, p.1 ≤ p.2 := by
    intro p hp
    obtain ⟨n, hn, he⟩ := List.mem_iff_getElem.mp hp
    have hn2 : n < kl.length := by omega
    have := hgetD n hn2
    rw [List.getD_eq_getElem _ _ hn] at this
    rw [he] at this
    have h3 := hk n hn2
    rw [this]
    exact h3
  have hfst : List.map Prod.fst (kl.zip Nl) = kl :=
    List.map_fst_zip kl Nl (le_of_eq hlen)
  have hsnd : List.map Prod.snd (kl.zip Nl) = Nl :=
    List.map_snd_zip kl Nl (ge_of_eq hlen)
  obtain ⟨hnd, hlg, hmem, chunks, hjoin, hclen, hspec⟩ :=
    binnedBins_spec g (kl.zip Nl) 0 t hpair
  rw [hfst] at hlg
  rw [hsnd] at hmem
  have hbb : binnedSampleBinned g kl Nl t = binnedBins g (kl.zip Nl) 0 t := by
    rw [binnedSampleBinned, if_pos hlen]
  refine ⟨by rw [hbb]; exact hnd, by rw [hbb]; exact hlg, ?_, chunks, ?_,
    by omega, ?_⟩
  · intro x hx
    rw [hbb] at hx
    have := hmem x hx
    omega
  · rw [hbb]
    exact hjoin
  · intro i hi
    obtain ⟨h1, h2, h3⟩ := hspec i (by omega)
    rw [hgetD i hi] at h1 h3
    refine ⟨h1, h2, ?_⟩
    intro x hx
    have := h3 x hx
    rw [hsnd] at this
    omega

/-- C4 witness: the theorem applied to bins `(5, 5, 5)` with per-bin counts
`(1, 0, 3)` and a concrete sampler stream. -/
theorem C4_witness : BinnedClaim gC4 [1, 0, 3] [5, 5, 5] 0 :=
  C4_binnedSample_mode_c gC4 [1, 0, 3] [5, 5, 5] 0 (by decide) (by decide)

theorem susceptible_state (pop : Pop) (u : ℕ → ℚ) (j t : ℕ)
    (h : (susceptible pop u j t).1 = true) : (pop j).state = -1 := by
  by_cases hs : (pop j).state = -1
  · exact hs
  · simp [susceptible, hs] at h

theorem transDecide_target_state (cfg : Config) (pop : Pop) (u : ℕ → ℚ)
    (i j t : ℕ) (h : (transDecide cfg pop u i j t).1 = true) :
    (pop j).state = -1 :=
  susceptible_state pop u j _ ((transDecide_spec cfg pop u i j t).mp h).2.1

theorem addOnce_not_mem {l : List ℕ} {j : ℕ} (h : j ∉ l) :
    addOnce l j = l ++ [j] := by
  simp [addOnce, h]

theorem addOnce_nodup {l : List ℕ} (j : ℕ) (h : l.Nodup) :
    (addOnce l j).Nodup := by
  by_cases hj : j ∈ l
  · simpa [addOnce, hj] using h
  · rw [addOnce_not_mem hj]
    simp [List.nodup_append, h, hj]

theorem addOnce_length_le (l : List ℕ) (j : ℕ) :
    (addOnce l j).length ≤ l.length + 1 := by
  unfold addOnce
  split <;> simp

theorem infectEffects_ne (cfg : Config) (u : ℕ → ℚ) (pop : Pop) (j t k : ℕ)
    (h : k ≠ j) : (infectEffects cfg u pop j t).1 k = pop k := by
  unfold infectEffects
  split <;> exact setAg_ne _ _ _ _ h

theorem infectEffects_ni (cfg : Config) (u : ℕ → ℚ) (pop : Pop) (j t k : ℕ) :
    ((infectEffects cfg u pop j t).1 k).natural_immunity =
      (pop k).natural_immunity := by
  by_cases h : k = j
  · subst h
    unfold infectEffects
    split <;> simp [setAg_self]
  · rw [infectEffects_ne _ _ _ _ _ _ h]

theorem contactStep_inv (cfg : Config) (u : ℕ → ℚ) (i j : ℕ) (pop0 : Pop)
    (tot0 : ℕ) (ever0 : List ℕ) (st : ScanSt)
    (h : ScanInv cfg pop0 tot0 ever0 st) :
    ScanInv cfg pop0 tot0 ever0 (contactStep cfg u i j st) := by
  obtain ⟨hnd, htot, hin, hout, hni, hev, hevl⟩ := h
  unfold contactStep
  by_cases hb : (transDecide cfg st.pop u i j st.t).1 = true
  · rw [if_pos hb]
    have hjst : (st.pop j).state = -1 :=
      transDecide_target_state cfg st.pop u i j st.t hb
    have hjnew : j ∉ st.newinf := by
      intro hc
      have := (hin j hc).2
      rw [hjst] at this
      omega
    have hj0 : (pop0 j).state = -1 := by
      rw [← hout j hjnew]
      exact hjst
    rw [addOnce_not_mem hjnew]
    refine ⟨?_, ?_, ?_, ?_, ?_, ?_, ?_⟩
    · show (st.newinf ++ [j]).Nodup
      simp [List.nodup_append, hnd, hjnew]
    · show st.totinf + 1 = tot0 + (st.newinf ++ [j]).length
      simp only [htot, List.length_append, List.length_singleton]
      omega
    · show ∀ k, k ∈ st.newinf ++ [j] → (pop0 k).state = -1 ∧
        (((infectEffects cfg u st.pop j
          (transDecide cfg st.pop u i j st.t).2).1 k).state =
            (cfg.di : Int) + cfg.de + 1)
      intro k hk
      rcases List.mem_append.mp hk with hk | hk
      · have hkj : k ≠ j := fun he => hjnew (he ▸ hk)
        rw [infectEffects_ne _ _ _ _ _ _ hkj]
        exact hin k hk
      · have hkj : k = j := by simpa using hk
        subst hkj
        exact ⟨hj0, infectEffects_state_self cfg u st.pop k _⟩
    · show ∀ k, k ∉ st.newinf ++ [j] →
        (infectEffects cfg u st.pop j
          (transDecide cfg st.pop u i j st.t).2).1 k = pop0 k
      intro k hk
      simp only [List.mem_append, List.mem_singleton, not_or] at hk
      rw [infectEffects_ne _ _ _ _ _ _ hk.2]
      exact hout k hk.1
    · show ∀ k, ((infectEffects cfg u st.pop j
        (transDecide cfg st.pop u i j st.t).2).1 k).natural_immunity =
          (pop0 k).natural_immunity
      intro k
      rw [infectEffects_ni]
      exact hni k
    · show ever0.Nodup → (addOnce st.ever j).Nodup
      intro h0
      exact addOnce_nodup j (hev h0)
    · show (addOnce st.ever j).length + tot0 ≤ ever0.length + (st.totinf + 1)
      have := addOnce_length_le st.ever j
      omega
  · rw [if_neg hb]
    exact ⟨hnd, htot, hin, hout, hni, hev, hevl⟩

theorem contactFold_inv (cfg : Config) (u : ℕ → ℚ) (i : ℕ) (js : List ℕ)
    (pop0 : Pop) (tot0 : ℕ) (ever0 : List ℕ) (st : ScanSt)
    (h : ScanInv cfg pop0 tot0 ever0 st) :
    ScanInv cfg pop0 tot0 ever0 (contactFold cfg u i js st) := by
  induction js generalizing st with
  | nil => exact h
  | cons j rest ih =>
    exact ih _ (contactStep_inv cfg u i j pop0 tot0 ever0 st h)

theorem scanAgents_inv (cfg : Config) (u : ℕ → ℚ) (contacts : ℕ → List ℕ)
    (l : List ℕ) (c : ℕ) (pop0 : Pop) (tot0 : ℕ) (ever0 : List ℕ)
    (st : ScanSt) (h : ScanInv cfg pop0 tot0 ever0 st) :
    ScanInv cfg pop0 tot0 ever0 (scanAgents cfg u contacts l c st).1 := by
  induction l generalizing c st with
  | nil => exact h
  | cons i rest ih =>
    exact ih _ _ (contactFold_inv cfg u i (contacts c) pop0 tot0 ever0 st h)

theorem scanAgents_scanInv (cfg : Config) (u : ℕ → ℚ)
    (contacts : ℕ → List ℕ) (l : List ℕ) (c : ℕ) (pop : Pop) (tot : ℕ)
    (ever : List ℕ) (t : ℕ) :
    ScanInv cfg pop tot ever
      (scanAgents cfg u contacts l c ⟨pop, tot, ever, [], t⟩).1 := by
  refine scanAgents_inv cfg u contacts l c pop tot ever _ ?_
  exact ⟨List.nodup_nil, by simp, by simp, fun j a => rfl, fun j => rfl,
    fun h0 => h0, by simp⟩

/-- C5 (counterexample): the day's transmission scan does not behave as if
every state read observed the pre-day population.  In the concrete run, agents
0 and 1 are both infectious and both meet susceptible agent 2 with guaranteed
symptomatic transmission: the code infects agent 2 once (`totinf = 1`),
because agent 0's write of `state = di+de+1` to agent 2 is read by agent 1's
`susceptible` check; under the spec's frozen pre-day reads agent 1 would also
transmit (`totinf = 2`).  Moreover the actual mid-scan read of agent 2's state
observes `2 = di+de+1`, not the pre-day value `-1`. -/
theorem C5_counterexample :
    (scanAgents cfgC5 uOne ctsTwo [0, 1] 0 ⟨popC5, 0, [], [], 0⟩).1.totinf
      = 1 ∧
    (scanAgentsSpec cfgC5 uOne popC5 ctsTwo [0, 1] 0
      ⟨popC5, 0, [], [], 0⟩).1.totinf = 2 ∧
    ((contactStep cfgC5 uOne 0 2 ⟨popC5, 0, [], [], 0⟩).pop 2).state = 2 ∧
    (popC5 2).state = -1 := by
  refine ⟨by decide, by decide, by decide, by decide⟩

/-- C5 (amended): during a day's transmission scan the new-infection writes to
`state` are applied to the shared population immediately and are observed by
later reads of the same scan; only membership of the infected index set is
deferred to the end-of-day merge via the `newinf` accumulator.  Consequently
the accumulator is duplicate free, `totinf` grows by exactly its size, its
members went from pre-scan state `-1` to `di + de + 1`, every other agent is
untouched, and — since the scan iterates over the pre-day snapshot — new
infections still do not spread further on the same day. -/
theorem C5_scan_writes_immediate (cfg : Config) (u : ℕ → ℚ)
    (contacts : ℕ → List ℕ) (l : List ℕ) (c : ℕ) (pop : Pop) (tot : ℕ)
    (ever : List ℕ) (t : ℕ) : ScanClaim cfg u contacts l c pop tot ever t := by
  obtain ⟨hnd, htot, hin, hout, hni, hev, hevl⟩ :=
    scanAgents_scanInv cfg u contacts l c pop tot ever t
  exact ⟨hnd, htot, hin, hout⟩

theorem contactStep_ni (cfg : Config) (u : ℕ → ℚ) (i j : ℕ) (st : ScanSt)
    (k : ℕ) : ((contactStep cfg u i j st).pop k).natural_immunity =
      (st.pop k).natural_immunity := by
  unfold contactStep
  split
  · exact infectEffects_ni cfg u st.pop j _ k
  · rfl

theorem contactFold_ni (cfg : Config) (u : ℕ → ℚ) (i : ℕ) (js : List ℕ)
    (st : ScanSt) (k : ℕ) :
    ((contactFold cfg u i js st).pop k).natural_immunity =
      (st.pop k).natural_immunity := by
  induction js generalizing st with
  | nil => rfl
  | cons j rest ih =>
    rw [contactFold, ih, contactStep_ni]

theorem scanAgents_pop_ni (cfg : Config) (u : ℕ → ℚ)
    (contacts : ℕ → List ℕ) (il : List ℕ) (c : ℕ) (st : ScanSt) (k : ℕ) :
    ((scanAgents cfg u contacts il c st).1.pop k).natural_immunity =
      (st.pop k).natural_immunity := by
  induction il generalizing c st with
  | nil => rfl
  | cons i rest ih =>
    rw [scanAgents, ih, contactFold_ni]

theorem updateAgent_ni (cfg : Config) (u : ℕ → ℚ) (a : Agent) (t : ℕ)
    (hu : ∀ n, 0 ≤ u n ∧ u n < 1) (h0 : 0 ≤ a.natural_immunity)
    (h9 : a.natural_immunity ≤ 9 / 10) :
    a.natural_immunity ≤ ((updateAgent cfg u a t).1).natural_immunity ∧
    0 ≤ ((updateAgent cfg u a t).1).natural_immunity ∧
    ((updateAgent cfg u a t).1).natural_immunity ≤ 9 / 10 := by
  have hpos := (hu (t + 1)).1
  unfold updateAgent
  split
  · split
    · refine ⟨?_, ?_, ?_⟩
      · show a.natural_immunity ≤
          min (9 / 10) (a.natural_immunity + u (t + 1) * (1 / 2))
        refine le_min h9 ?_
        nlinarith
      · show (0 : ℚ) ≤
          min (9 / 10) (a.natural_immunity + u (t + 1) * (1 / 2))
        refine le_min (by norm_num) ?_
        nlinarith
      · show min (9 / 10) (a.natural_immunity + u (t + 1) * (1 / 2)) ≤
          (9 : ℚ) / 10
        exact min_le_left _ _
    · exact ⟨le_refl _, h0, h9⟩
  · split
    · exact ⟨le_refl _, h0, h9⟩
    · exact ⟨le_refl _, h0, h9⟩

theorem update_ni (cfg : Config) (u : ℕ → ℚ) (l : List ℕ) (pop : Pop)
    (t : ℕ) (hu : ∀ n, 0 ≤ u n ∧ u n < 1)
    (hb : ∀ i, 0 ≤ (pop i).natural_immunity ∧
      (pop i).natural_immunity ≤ 9 / 10) :
    ∀ i, (pop i).natural_immunity ≤
        ((update cfg u l pop t).1 i).natural_immunity ∧
      0 ≤ ((update cfg u l pop t).1 i).natural_immunity ∧
      ((update cfg u l pop t).1 i).natural_immunity ≤ 9 / 10 := by
  induction l generalizing pop t with
  | nil => exact fun i => ⟨le_refl _, (hb i).1, (hb i).2⟩
  | cons a rest ih =>
    intro i
    have hstep := updateAgent_ni cfg u (pop a) t hu (hb a).1 (hb a).2
    have hb2 : ∀ k,
        0 ≤ ((setAg pop a (updateAgent cfg u (pop a) t).1) k).natural_immunity ∧
        ((setAg pop a (updateAgent cfg u (pop a) t).1) k).natural_immunity ≤
          9 / 10 := by
      intro k
      by_cases hk : k = a
      · subst hk
        rw [setAg_self]
        exact ⟨hstep.2.1, hstep.2.2⟩
      · rw [setAg_ne _ _ _ _ hk]
        exact hb k
    have hrec := ih (setAg pop a (updateAgent cfg u (pop a) t).1)
      (updateAgent cfg u (pop a) t).2 hb2
    by_cases hk : i = a
    · subst hk
      have h1 := hrec i
      rw [setAg_self] at h1
      exact ⟨le_trans hstep.1 h1.1, h1.2.1, h1.2.2⟩
    · have h1 := hrec i
      rw [setAg_ne _ _ _ _ hk] at h1
      exact h1

theorem mkAgents_ni (u : ℕ → ℚ) (vp mp : ℚ) (n t : ℕ) :
    ∀ a ∈ (mkAgents u vp mp n t).1, a.natural_immunity = 0 := by
  induction n generalizing t with
  | zero =>
    intro a ha
    simp [mkAgents] at ha
  | succ n ih =>
    intro a ha
    simp only [mkAgents, List.mem_cons] at ha
    rcases ha with rfl | ha
    · rfl
    · exact ih _ a ha

theorem popOfList_ni (l : List Agent)
    (h : ∀ a ∈ l, a.natural_immunity = 0) (i : ℕ) :
    ((popOfList l) i).natural_immunity = 0 := by
  unfold popOfList
  by_cases hi : i < l.length
  · rw [List.getD_eq_getElem _ _ hi]
    exact h _ (List.getElem_mem hi)
  · rw [List.getD_eq_default _ _ (le_of_not_lt hi)]
    rfl

theorem initInfect_ni (cfg : Config) (u : ℕ → ℚ) (l : List ℕ) (pop : Pop)
    (t i : ℕ) : (((initInfect cfg u l pop t).1) i).natural_immunity =
      (pop i).natural_immunity := by
  induction l generalizing pop t with
  | nil => rfl
  | cons j rest ih =>
    simp only [initInfect]
    split
    · rw [ih]
      by_cases hij : i = j
      · subst hij
        rw [setAg_self]
      · rw [setAg_ne _ _ _ _ hij]
    · rw [ih]
      by_cases hij : i = j
      · subst hij
        rw [setAg_self]
      · rw [setAg_ne _ _ _ _ hij]

theorem newPop_ni (cfg : Config) (u : ℕ → ℚ) (g : ℕ → ℕ) (i : ℕ) :
    (((newPop cfg u g).1) i).natural_immunity = 0 := by
  show (((initInfect cfg u ((binnedSampleFlat g cfg.I cfg.N 0).1)
    (popOfList (mkAgents u cfg.vp cfg.mp cfg.N 0).1)
    (mkAgents u cfg.vp cfg.mp cfg.N 0).2).1) i).natural_immunity = 0
  rw [initInfect_ni]
  exact popOfList_ni _ (mkAgents_ni u cfg.vp cfg.mp cfg.N 0) i

theorem simLoop_ni (cfg : Config) (u : ℕ → ℚ) (contacts : ℕ → List ℕ)
    (fuel : ℕ) (st : SimSt) (hu : ∀ n, 0 ≤ u n ∧ u n < 1)
    (hb : ∀ i, 0 ≤ (st.pop i).natural_immunity ∧
      (st.pop i).natural_immunity ≤ 9 / 10) :
    ∀ i, 0 ≤ ((simLoop cfg u contacts fuel st).pop i).natural_immunity ∧
      ((simLoop cfg u contacts fuel st).pop i).natural_immunity ≤ 9 / 10 := by
  induction fuel generalizing st with
  | zero => exact hb
  | succ fuel ih =>
    simp only [simLoop]
    split
    · intro i
      have h := update_ni cfg u st.infL st.pop st.t hu hb i
      exact ⟨h.2.1, h.2.2⟩
    · refine ih _ ?_
      intro i
      have e := scanAgents_pop_ni cfg u contacts
        (update cfg u st.infL st.pop st.t).2.1 st.c
        ⟨(update cfg u st.infL st.pop st.t).1, st.totinf, st.ever, [],
          (update cfg u st.infL st.pop st.t).2.2⟩ i
      have h := update_ni cfg u st.infL st.pop st.t hu hb i
      refine ⟨?_, ?_⟩
      · show (0 : ℚ) ≤ ((dayScan cfg u contacts st).1.pop i).natural_immunity
        rw [show (dayScan cfg u contacts st).1.pop i =
          (scanAgents cfg u contacts (update cfg u st.infL st.pop st.t).2.1
            st.c ⟨(update cfg u st.infL st.pop st.t).1, st.totinf, st.ever,
              [], (update cfg u st.infL st.pop st.t).2.2⟩).1.pop i from rfl]
        rw [e]
        exact h.2.1
      · show ((dayScan cfg u contacts st).1.pop i).natural_immunity ≤ 9 / 10
        rw [show (dayScan cfg u contacts st).1.pop i =
          (scanAgents cfg u contacts (update cfg u st.infL st.pop st.t).2.1
            st.c ⟨(update cfg u st.infL st.pop st.t).1, st.totinf, st.ever,
              [], (update cfg u st.infL st.pop st.t).2.2⟩).1.pop i from rfl]
        rw [e]
        exact h.2.2

/-- C8 (confirmed): with uniform draws in `[0,1)`, `natural_immunity` is
non-decreasing for every agent across the run — a daily `update` never lowers
it and keeps it within `[0, 0.9]`, and the transmission scan never changes it
— and every agent starts a run at `0` and ends a run within `[0, 0.9]`. -/
theorem C8_immunity_monotone_capped (cfg : Config) (u : ℕ → ℚ) (g : ℕ → ℕ)
    (contacts : ℕ → List ℕ) (l il : List ℕ) (pop : Pop) (t c : ℕ)
    (sts : ScanSt) (hu : ∀ n, 0 ≤ u n ∧ u n < 1) :
    ImmunityClaim cfg u g contacts l il pop t c sts := by
  refine ⟨fun hb => update_ni cfg u l pop t hu hb,
    fun i => scanAgents_pop_ni cfg u contacts il c sts i,
    fun i => newPop_ni cfg u g i, ?_⟩
  refine simLoop_ni cfg u contacts cfg.max (simInit cfg u g) hu ?_
  intro i
  have h := newPop_ni cfg u g i
  show 0 ≤ (((newPop cfg u g).1) i).natural_immunity ∧
    (((newPop cfg u g).1) i).natural_immunity ≤ 9 / 10
  rw [h]
  norm_num

/-- C8 witness: the theorem applied to concrete inputs with the constant draw
stream `1/2`. -/
theorem C8_witness :
    ImmunityClaim cfgC7 uHalf gZero noContacts [] [] (popOfList []) 0 0
      ⟨popOfList [], 0, [], [], 0⟩ :=
  C8_immunity_monotone_capped cfgC7 uHalf gZero noContacts [] []
    (popOfList []) 0 0 ⟨popOfList [], 0, [], [], 0⟩
    (fun _ => by norm_num [uHalf])

theorem contactStep_counter (cfg : Config) (u : ℕ → ℚ) (i j : ℕ)
    (st : ScanSt) (h1 : st.ever.Nodup) (h2 : st.ever.length ≤ st.totinf) :
    (contactStep cfg u i j st).ever.Nodup ∧
    (contactStep cfg u i j st).ever.length ≤
      (contactStep cfg u i j st).totinf := by
  unfold contactStep
  split
  · refine ⟨addOnce_nodup j h1, ?_⟩
    show (addOnce st.ever j).length ≤ st.totinf + 1
    have := addOnce_length_le st.ever j
    omega
  · exact ⟨h1, h2⟩

theorem simInit_ever_nodup (cfg : Config) (u : ℕ → ℚ) (g : ℕ → ℕ) :
    (simInit cfg u g).ever.Nodup := by
  show ((binnedSampleFlat g cfg.I cfg.N 0).1).Nodup
  exact sampleList_nodup _ _ _ _ (List.nodup_range cfg.N)

theorem simLoop_counter (cfg : Config) (u : ℕ → ℚ) (contacts : ℕ → List ℕ)
    (fuel : ℕ) (st : SimSt)
    (hb : st.ever.Nodup ∧ st.ever.length ≤ st.totinf) :
    (simLoop cfg u contacts fuel st).ever.Nodup ∧
    (simLoop cfg u contacts fuel st).ever.length ≤
      (simLoop cfg u contacts fuel st).totinf := by
  induction fuel generalizing st with
  | zero => exact hb
  | succ fuel ih =>
    simp only [simLoop]
    split
    · exact hb
    · refine ih _ ?_
      obtain ⟨hnd, htot, hin, hout, hni, hev, hevl⟩ :=
        scanAgents_scanInv cfg u contacts
          (update cfg u st.infL st.pop st.t).2.1 st.c
          (update cfg u st.infL st.pop st.t).1 st.totinf st.ever
          (update cfg u st.infL st.pop st.t).2.2
      refine ⟨hev hb.1, ?_⟩
      show (scanAgents cfg u contacts (update cfg u st.infL st.pop st.t).2.1
          st.c ⟨(update cfg u st.infL st.pop st.t).1, st.totinf, st.ever, [],
            (update cfg u st.infL st.pop st.t).2.2⟩).1.ever.length ≤
        (scanAgents cfg u contacts (update cfg u st.infL st.pop st.t).2.1
          st.c ⟨(update cfg u st.infL st.pop st.t).1, st.totinf, st.ever, [],
            (update cfg u st.infL st.pop st.t).2.2⟩).1.totinf
      have h2 := hb.2
      omega

/-- C10 (confirmed): the total infection-event counter dominates the size of
the (duplicate-free) ever-infected set at the start of a run (they are
equal), across every transmission event, and at the end of the run, so the
derived reinfection count `totinf - |ever_infected|` is never negative. -/
theorem C10_totinf_ge_ever (cfg : Config) (u : ℕ → ℚ) (g : ℕ → ℕ)
    (contacts : ℕ → List ℕ) (i j : ℕ) (st : ScanSt) :
    CounterClaim cfg u g contacts i j st := by
  refine ⟨rfl, fun h1 h2 => contactStep_counter cfg u i j st h1 h2, ?_⟩
  exact simLoop_counter cfg u contacts cfg.max (simInit cfg u g)
    ⟨simInit_ever_nodup cfg u g, le_of_eq rfl⟩

theorem setUnion_mem (a b : List ℕ) (i : ℕ) :
    i ∈ setUnion a b ↔ i ∈ a ∨ i ∈ b := by
  simp only [setUnion, List.mem_append, List.mem_filter, decide_eq_true_eq]
  by_cases hi : i ∈ a
  · simp [hi]
  · simp [hi]

theorem setUnion_nodup {a b : List ℕ} (ha : a.Nodup) (hb : b.Nodup) :
    (setUnion a b).Nodup := by
  rw [setUnion, List.nodup_append]
  refine ⟨ha, List.Nodup.filter _ hb, ?_⟩
  intro x hx hc
  have := (List.mem_filter.mp hc).2
  simp only [decide_eq_true_eq] at this
  exact this hx

theorem update_infInv (cfg : Config) (u : ℕ → ℚ) (l : List ℕ) (pop : Pop)
    (t : ℕ) (h : InfInv pop l) :
    InfInv (update cfg u l pop t).1 (update cfg u l pop t).2.1 := by
  obtain ⟨hnd, hiff⟩ := h
  constructor
  · exact (update_keep_sublist cfg u l pop t).nodup hnd
  · intro i
    by_cases hi : i ∈ l
    · obtain ⟨ti, hv, hm⟩ := update_point_spec cfg u l pop t i hnd hi
      have hpos : (pop i).state > 0 := (hiff i).mp hi
      rw [hv, hm]
      by_cases h1 : (pop i).state = 1
      · simp only [h1, ne_eq, not_true_eq_false, false_iff, not_lt]
        unfold updateAgent
        rw [if_pos h1]
        split <;> simp
      · simp only [ne_eq, h1, not_false_iff, true_iff]
        unfold updateAgent
        rw [if_neg h1, if_pos hpos]
        simp only []
        omega
    · have hnk : i ∉ (update cfg u l pop t).2.1 :=
        fun hc => hi ((update_keep_sublist cfg u l pop t).mem hc)
      rw [update_frame _ _ _ _ _ _ hi]
      constructor
      · intro hc
        exact absurd hc hnk
      · intro hc
        exact absurd ((hiff i).mpr hc) hi

theorem scan_merge_infInv (cfg : Config) (u : ℕ → ℚ)
    (contacts : ℕ → List ℕ) (l : List ℕ) (c : ℕ) (pop : Pop) (tot : ℕ)
    (ever : List ℕ) (t : ℕ) (h : InfInv pop l) :
    InfInv (scanAgents cfg u contacts l c ⟨pop, tot, ever, [], t⟩).1.pop
      (setUnion l
        (scanAgents cfg u contacts l c ⟨pop, tot, ever, [], t⟩).1.newinf) := by
  obtain ⟨hnd, hiff⟩ := h
  obtain ⟨nnd, htot, hin, hout, hni, hev, hevl⟩ :=
    scanAgents_scanInv cfg u contacts l c pop tot ever t
  constructor
  · exact setUnion_nodup hnd nnd
  · intro i
    rw [setUnion_mem]
    by_cases hn :
        i ∈ (scanAgents cfg u contacts l c ⟨pop, tot, ever, [], t⟩).1.newinf
    · rw [(hin i hn).2]
      simp only [hn, or_true, true_iff]
      omega
    · rw [hout i hn]
      simp only [hn, or_false]
      exact hiff i

theorem simLoop_infInv (cfg : Config) (u : ℕ → ℚ) (contacts : ℕ → List ℕ)
    (fuel : ℕ) (st : SimSt) (h : InfInv st.pop st.infL) :
    InfInv (simLoop cfg u contacts fuel st).pop
      (simLoop cfg u contacts fuel st).infL := by
  induction fuel generalizing st with
  | zero => exact h
  | succ fuel ih =>
    simp only [simLoop]
    split
    · exact update_infInv cfg u st.infL st.pop st.t h
    · refine ih _ ?_
      exact scan_merge_infInv cfg u contacts
        (update cfg u st.infL st.pop st.t).2.1 st.c
        (update cfg u st.infL st.pop st.t).1 st.totinf st.ever
        (update cfg u st.infL st.pop st.t).2.2
        (update_infInv cfg u st.infL st.pop st.t h)

theorem initInfect_frame (cfg : Config) (u : ℕ → ℚ) (l : List ℕ) (pop : Pop)
    (t i : ℕ) (h : i ∉ l) : (initInfect cfg u l pop t).1 i = pop i := by
  induction l generalizing pop t with
  | nil => rfl
  | cons j rest ih =>
    simp only [List.mem_cons, not_or] at h
    simp only [initInfect]
    split
    · rw [ih _ _ h.2, setAg_ne _ _ _ _ h.1]
    · rw [ih _ _ h.2, setAg_ne _ _ _ _ h.1]

theorem initInfect_state_mem (cfg : Config) (u : ℕ → ℚ) (l : List ℕ)
    (pop : Pop) (t i : ℕ) (hnd : l.Nodup) (hi : i ∈ l) :
    ((initInfect cfg u l pop t).1 i).state = (cfg.di : Int) + cfg.de + 1 := by
  induction l generalizing pop t with
  | nil => cases hi
  | cons j rest ih =>
    have hnd2 := List.nodup_cons.mp hnd
    rcases List.mem_cons.mp hi with rfl | hmem
    · simp only [initInfect]
      split
      · rw [initInfect_frame _ _ _ _ _ _ hnd2.1, setAg_self]
      · rw [initInfect_frame _ _ _ _ _ _ hnd2.1, setAg_self]
    · simp only [initInfect]
      split
      · exact ih _ _ hnd2.2 hmem
      · exact ih _ _ hnd2.2 hmem

theorem mkAgents_state (u : ℕ → ℚ) (vp mp : ℚ) (n t : ℕ) :
    ∀ a ∈ (mkAgents u vp mp n t).1, a.state = -1 := by
  induction n generalizing t with
  | zero =>
    intro a ha
    simp [mkAgents] at ha
  | succ n ih =>
    intro a ha
    simp only [mkAgents, List.mem_cons] at ha
    rcases ha with rfl | ha
    · rfl
    · exact ih _ a ha

theorem popOfList_state (l : List Agent) (h : ∀ a ∈ l, a.state = -1)
    (i : ℕ) : ((popOfList l) i).state = -1 := by
  unfold popOfList
  by_cases hi : i < l.length
  · rw [List.getD_eq_getElem _ _ hi]
    exact h _ (List.getElem_mem hi)
  · rw [List.getD_eq_default _ _ (le_of_not_lt hi)]
    rfl

theorem newPop_infInv (cfg : Config) (u : ℕ → ℚ) (g : ℕ → ℕ) :
    InfInv (newPop cfg u g).1 (newPop cfg u g).2.1 := by
  have hnd : ((binnedSampleFlat g cfg.I cfg.N 0).1).Nodup :=
    sampleList_nodup _ _ _ _ (List.nodup_range cfg.N)
  constructor
  · exact hnd
  · intro i
    show i ∈ (binnedSampleFlat g cfg.I cfg.N 0).1 ↔
      (((initInfect cfg u ((binnedSampleFlat g cfg.I cfg.N 0).1)
        (popOfList (mkAgents u cfg.vp cfg.mp cfg.N 0).1)
        (mkAgents u cfg.vp cfg.mp cfg.N 0).2).1) i).state > 0
    by_cases hi : i ∈ (binnedSampleFlat g cfg.I cfg.N 0).1
    · rw [initInfect_state_mem _ _ _ _ _ _ hnd hi]
      simp only [hi, true_iff]
      omega
    · rw [initInfect_frame _ _ _ _ _ _ hi,
        popOfList_state _ (mkAgents_state u cfg.vp cfg.mp cfg.N 0) i]
      constructor
      · intro hc
        exact absurd hc hi
      · intro hc
        exact absurd hc (by omega)

/-- C3 (confirmed): at every day boundary of the simulation loop — after
population creation, after each call to `update`, and after each end-of-day
merge of the new-infection accumulator — the maintained infected index set is
duplicate free and contains exactly the indices `i` with `state[i] > 0`
(indices are added on new infection and removed on transition to `0` or
`-1`, never otherwise); consequently the invariant also holds of the state a
full run ends in. -/
theorem C3_infected_set_invariant (cfg : Config) (u : ℕ → ℚ) (g : ℕ → ℕ)
    (contacts : ℕ → List ℕ) (l : List ℕ) (pop : Pop) (t c tot : ℕ)
    (ever : List ℕ) : InfectedSetClaim cfg u g contacts l pop t c tot ever := by
  refine ⟨newPop_infInv cfg u g, update_infInv cfg u l pop t,
    scan_merge_infInv cfg u contacts l c pop tot ever t, ?_⟩
  exact simLoop_infInv cfg u contacts cfg.max (simInit cfg u g)
    (newPop_infInv cfg u g)

theorem simLoop_curve (cfg : Config) (u : ℕ → ℚ) (contacts : ℕ → List ℕ)
    (fuel : ℕ) (st : SimSt) (hx : st.extinct = false)
    (hc : ∀ x ∈ st.curve, x ≠ 0) :
    ((simLoop cfg u contacts fuel st).extinct = true ↔
      0 ∈ (simLoop cfg u contacts fuel st).curve) ∧
    (∀ d, d + 1 < (simLoop cfg u contacts fuel st).curve.length →
      (simLoop cfg u contacts fuel st).curve.getD d 1 ≠ 0) := by
  induction fuel generalizing st with
  | zero =>
    refine ⟨?_, ?_⟩
    · rw [simLoop, hx]
      simp only [Bool.false_eq_true, false_iff]
      intro h0
      exact hc 0 h0 rfl
    · rw [simLoop]
      intro d hd h0
      have hdl : d < st.curve.length := by omega
      rw [List.getD_eq_getElem _ _ hdl] at h0
      have hmem := List.getElem_mem hdl
      rw [h0] at hmem
      exact hc 0 hmem rfl
  | succ fuel ih =>
    simp only [simLoop]
    split
    · simp only [dayExtinct]
      refine ⟨?_, ?_⟩
      · constructor
        · intro hone
          apply List.mem_append.mpr
          right
          simp only [*, List.mem_singleton]
        · intro hone
          trivial
      · intro d hd h0
        have hdl : d < st.curve.length := by
          rw [List.length_append, List.length_singleton] at hd
          omega
        rw [List.getD_append _ _ _ _ hdl] at h0
        rw [List.getD_eq_getElem _ _ hdl] at h0
        have hmem := List.getElem_mem hdl
        rw [h0] at hmem
        exact hc 0 hmem rfl
    · refine ih _ rfl ?_
      intro x hx2
      have hx3 : x ∈ st.curve ++ [(update cfg u st.infL st.pop st.t).2.1.length] := hx2
      rcases List.mem_append.mp hx3 with hmem | hmem
      · exact hc x hmem
      · have hxe : x = (update cfg u st.infL st.pop st.t).2.1.length := by
          simpa using hmem
        subst hxe
        intro h0
        exact absurd h0 (by assumption)

/-- C6 (counterexample): with no initially infected agent (`I = 0`, a
configuration the code runs without complaint) the run yields the curve
`[0, 0]`: `curve[0] = 0` is a zero entry yet a further day is produced after
it, so a zero entry need not be the last element of the curve. -/
theorem C6_counterexample :
    (sim cfgC6 uOne gZero noContacts).curve = [0, 0] ∧
    (sim cfgC6 uOne gZero noContacts).curve.getD 0 1 = 0 ∧
    (sim cfgC6 uOne gZero noContacts).curve.length = 2 := by
  refine ⟨by decide, by decide, by decide⟩

/-- C6 (amended): for every configuration with at least one initially
infected agent (`1 ≤ I ≤ N`) and every random stream, the simulation ends in
the extinguished terminal state iff some entry of the returned curve equals
`0`, and after the first zero entry no further days are produced — the zero
entry, if any, is the last element of the curve.  (With `I = 0` the claim
fails: `curve[0] = 0` and the loop still runs a first day.) -/
theorem C6_extinguished_iff_zero (cfg : Config) (u : ℕ → ℚ) (g : ℕ → ℕ)
    (contacts : ℕ → List ℕ) (h1 : 1 ≤ cfg.I) (h2 : cfg.I ≤ cfg.N) :
    CurveClaim cfg u g contacts := by
  have hlen : (simInit cfg u g).curve = [cfg.I] := by
    show [(binnedSampleFlat g cfg.I cfg.N 0).1.length] = [cfg.I]
    rw [binnedSampleFlat,
      sampleList_length _ _ _ _ (by rw [List.length_range]; exact h2)]
  refine simLoop_curve cfg u contacts cfg.max (simInit cfg u g) rfl ?_
  intro x hx
  rw [hlen] at hx
  have hxe : x = cfg.I := by simpa using hx
  omega

/-- C6 witness: the amended theorem applied to the single-initial-infection
configuration. -/
theorem C6_witness : CurveClaim cfgC7 uHalf gZero noContacts :=
  C6_extinguished_iff_zero cfgC7 uHalf gZero noContacts (by decide) (by decide)

theorem transDecide_zero (cfg : Config) (pop : Pop) (u : ℕ → ℚ) (i j t : ℕ)
    (htpe : cfg.tpe = 0) (htpi : cfg.tpi = 0) (hu : ∀ n, 0 < u n) :
    (transDecide cfg pop u i j t).1 = false := by
  by_cases hb : (transDecide cfg pop u i j t).1 = true
  · exfalso
    have h := (transDecide_spec cfg pop u i j t).mp hb
    rcases h.2.2 with ⟨he, hf⟩ | ⟨hi2, hf⟩
    · rw [htpe, flip_zero_of_pos (hu _)] at hf
      cases hf
    · rw [htpi, flip_zero_of_pos (hu _)] at hf
      cases hf
  · simpa using hb

theorem contactStep_zero (cfg : Config) (u : ℕ → ℚ) (i j : ℕ) (st : ScanSt)
    (htpe : cfg.tpe = 0) (htpi : cfg.tpi = 0) (hu : ∀ n, 0 < u n) :
    contactStep cfg u i j st =
      { st with t := (transDecide cfg st.pop u i j st.t).2 } := by
  unfold contactStep
  rw [transDecide_zero cfg st.pop u i j st.t htpe htpi hu]
  simp

theorem contactFold_zero (cfg : Config) (u : ℕ → ℚ) (i : ℕ) (js : List ℕ)
    (st : ScanSt) (htpe : cfg.tpe = 0) (htpi : cfg.tpi = 0)
    (hu : ∀ n, 0 < u n) :
    (contactFold cfg u i js st).pop = st.pop ∧
    (contactFold cfg u i js st).totinf = st.totinf ∧
    (contactFold cfg u i js st).ever = st.ever ∧
    (contactFold cfg u i js st).newinf = st.newinf := by
  induction js generalizing st with
  | nil => exact ⟨rfl, rfl, rfl, rfl⟩
  | cons j rest ih =>
    rw [contactFold, contactStep_zero cfg u i j st htpe htpi hu]
    exact ih { st with t := (transDecide cfg st.pop u i j st.t).2 }

theorem scanAgents_zero (cfg : Config) (u : ℕ → ℚ) (contacts : ℕ → List ℕ)
    (il : List ℕ) (c : ℕ) (st : ScanSt) (htpe : cfg.tpe = 0)
    (htpi : cfg.tpi = 0) (hu : ∀ n, 0 < u n) :
    (scanAgents cfg u contacts il c st).1.pop = st.pop ∧
    (scanAgents cfg u contacts il c st).1.totinf = st.totinf ∧
    (scanAgents cfg u contacts il c st).1.ever = st.ever ∧
    (scanAgents cfg u contacts il c st).1.newinf = st.newinf := by
  induction il generalizing c st with
  | nil => exact ⟨rfl, rfl, rfl, rfl⟩
  | cons i rest ih =>
    rw [scanAgents]
    have hcf := contactFold_zero cfg u i (contacts c) st htpe htpi hu
    obtain ⟨h1, h2, h3, h4⟩ := ih (c + 1) (contactFold cfg u i (contacts c) st)
    exact ⟨h1.trans hcf.1, h2.trans hcf.2.1, h3.trans hcf.2.2.1,
      h4.trans hcf.2.2.2⟩

theorem update_single_last (cfg : Config) (u : ℕ → ℚ) (pop : Pop) (t i0 : ℕ)
    (h1 : (pop i0).state = 1) : (update cfg u [i0] pop t).2.1 = [] := by
  simp [update, h1]

theorem update_single_decr (cfg : Config) (u : ℕ → ℚ) (pop : Pop) (t i0 : ℕ)
    (h2 : (pop i0).state > 1) :
    (update cfg u [i0] pop t).2.1 = [i0] ∧
    ((update cfg u [i0] pop t).1) i0 =
      { pop i0 with state := (pop i0).state - 1 } := by
  have hne : (pop i0).state ≠ 1 := by omega
  have hpos : (pop i0).state > 0 := by omega
  constructor
  · simp [update, hne]
  · simp [update, updateAgent, hne, hpos, setAg_self]

theorem setUnion_nil (a : List ℕ) : setUnion a [] = a := by
  simp [setUnion]

theorem sampleList_one (g : ℕ → ℕ) (l : List ℕ) (t : ℕ) (hl : l ≠ []) :
    (sampleList g 1 l t).1 = [l.getD (g t % l.length) 0] := by
  simp [sampleList, hl]

/-- With both transmission rates zero and strictly positive draws, a run that
holds exactly one infected agent at state `s ≥ 1` runs for `s` further days:
`s - 1` days of count `1` and a final `0`, leaving the counters untouched and
ending extinguished. -/
theorem simLoop_single (cfg : Config) (u : ℕ → ℚ) (contacts : ℕ → List ℕ)
    (htpe : cfg.tpe = 0) (htpi : cfg.tpi = 0) (hu : ∀ n, 0 < u n) :
    ∀ s fuel : ℕ, 1 ≤ s → s ≤ fuel → ∀ (st : SimSt) (i0 : ℕ),
      st.infL = [i0] → (st.pop i0).state = (s : Int) →
      (simLoop cfg u contacts fuel st).curve =
        st.curve ++ (List.replicate (s - 1) 1 ++ [0]) ∧
      (simLoop cfg u contacts fuel st).totinf = st.totinf ∧
      (simLoop cfg u contacts fuel st).ever = st.ever ∧
      (simLoop cfg u contacts fuel st).extinct = true := by
  intro s
  induction s with
  | zero =>
    intro fuel h1
    omega
  | succ k ih =>
    intro fuel h1 hf st i0 hinf hst
    obtain ⟨f, rfl⟩ : ∃ f, fuel = f + 1 := ⟨fuel - 1, by omega⟩
    by_cases hk : k = 0
    · subst hk
      have h1s : (st.pop i0).state = 1 := by
        rw [hst]
        norm_num
      have hkept : (update cfg u st.infL st.pop st.t).2.1 = [] := by
        rw [hinf]
        exact update_single_last cfg u st.pop st.t i0 h1s
      have hcond : (update cfg u st.infL st.pop st.t).2.1.length = 0 := by
        rw [hkept]
        rfl
      simp only [simLoop]
      rw [if_pos hcond]
      refine ⟨?_, rfl, rfl, rfl⟩
      show st.curve ++ [(update cfg u st.infL st.pop st.t).2.1.length] =
        st.curve ++ (List.replicate (1 - 1) 1 ++ [0])
      rw [hcond]
      simp
    · obtain ⟨m, rfl⟩ : ∃ m, k = m + 1 := ⟨k - 1, by omega⟩
      have h2 : (st.pop i0).state > 1 := by
        rw [hst]
        omega
      have hud := update_single_decr cfg u st.pop st.t i0 h2
      have hkept : (update cfg u st.infL st.pop st.t).2.1 = [i0] := by
        rw [hinf]
        exact hud.1
      have hcond : ¬(update cfg u st.infL st.pop st.t).2.1.length = 0 := by
        rw [hkept]
        simp
      have hds : dayScan cfg u contacts st =
          scanAgents cfg u contacts (update cfg u st.infL st.pop st.t).2.1
            st.c ⟨(update cfg u st.infL st.pop st.t).1, st.totinf, st.ever,
              [], (update cfg u st.infL st.pop st.t).2.2⟩ := rfl
      have hsz := scanAgents_zero cfg u contacts
        (update cfg u st.infL st.pop st.t).2.1 st.c
        ⟨(update cfg u st.infL st.pop st.t).1, st.totinf, st.ever, [],
          (update cfg u st.infL st.pop st.t).2.2⟩ htpe htpi hu
      have hinf2 : (dayMerge cfg u contacts st).infL = [i0] := by
        show setUnion (update cfg u st.infL st.pop st.t).2.1
          (dayScan cfg u contacts st).1.newinf = [i0]
        rw [hds, hsz.2.2.2, hkept]
        exact setUnion_nil [i0]
      have hst2 : ((dayMerge cfg u contacts st).pop i0).state =
          ((m + 1 : ℕ) : Int) := by
        show ((dayScan cfg u contacts st).1.pop i0).state = _
        rw [hds, hsz.1, hinf]
        show ((update cfg u [i0] st.pop st.t).1 i0).state = ((m + 1 : ℕ) : Int)
        rw [hud.2]
        show (st.pop i0).state - 1 = ((m + 1 : ℕ) : Int)
        rw [hst]
        omega
      have hres := ih f (by omega) (by omega) (dayMerge cfg u contacts st) i0
        hinf2 hst2
      simp only [simLoop]
      rw [if_neg hcond]
      refine ⟨?_, ?_, ?_, hres.2.2.2⟩
      · rw [hres.1]
        have hcu : (dayMerge cfg u contacts st).curve = st.curve ++ [1] := by
          show st.curve ++ [(update cfg u st.infL st.pop st.t).2.1.length] =
            st.curve ++ [1]
          rw [hkept]
          rfl
        rw [hcu, List.append_assoc]
        congr 1
      · rw [hres.2.1]
        show (dayScan cfg u contacts st).1.totinf = st.totinf
        rw [hds]
        exact hsz.2.1
      · rw [hres.2.2.1]
        show (dayScan cfg u contacts st).1.ever = st.ever
        rw [hds]
        exact hsz.2.2.1

/-- The single-case scenario: one initial infection, `di = 5`, `de = 3`, both
transmission rates zero, strictly positive draws — the curve is nine `1`
entries followed by `0`, with one infection event and one ever-infected
agent. -/
theorem single_case_run (cfg : Config) (u : ℕ → ℚ) (g : ℕ → ℕ)
    (contacts : ℕ → List ℕ) (htpe : cfg.tpe = 0) (htpi : cfg.tpi = 0)
    (hI : cfg.I = 1) (hdi : cfg.di = 5) (hde : cfg.de = 3) (hN : 1 ≤ cfg.N)
    (hmax : 9 ≤ cfg.max) (hu : ∀ n, 0 < u n) :
    (sim cfg u g contacts).curve = List.replicate 9 1 ++ [0] ∧
    (sim cfg u g contacts).totinf = 1 ∧
    (sim cfg u g contacts).ever.length = 1 ∧
    (sim cfg u g contacts).extinct = true := by
  have hrange : List.range cfg.N ≠ [] := by
    intro hc
    rw [List.range_eq_nil] at hc
    omega
  have hinfL : (binnedSampleFlat g cfg.I cfg.N 0).1 =
      [(List.range cfg.N).getD (g 0 % (List.range cfg.N).length) 0] := by
    rw [binnedSampleFlat, hI]
    exact sampleList_one g (List.range cfg.N) 0 hrange
  have hinf : (simInit cfg u g).infL =
      [(List.range cfg.N).getD (g 0 % (List.range cfg.N).length) 0] := hinfL
  have hnd : ((binnedSampleFlat g cfg.I cfg.N 0).1).Nodup :=
    sampleList_nodup _ _ _ _ (List.nodup_range cfg.N)
  have hmem : (List.range cfg.N).getD (g 0 % (List.range cfg.N).length) 0 ∈
      (binnedSampleFlat g cfg.I cfg.N 0).1 := by
    rw [hinfL]
    exact List.mem_singleton.mpr rfl
  have hst : (((simInit cfg u g).pop)
      ((List.range cfg.N).getD (g 0 % (List.range cfg.N).length) 0)).state =
      ((9 : ℕ) : Int) := by
    show ((initInfect cfg u ((binnedSampleFlat g cfg.I cfg.N 0).1)
      (popOfList (mkAgents u cfg.vp cfg.mp cfg.N 0).1)
      (mkAgents u cfg.vp cfg.mp cfg.N 0).2).1
        ((List.range cfg.N).getD (g 0 % (List.range cfg.N).length) 0)).state =
      ((9 : ℕ) : Int)
    rw [initInfect_state_mem _ _ _ _ _ _ hnd hmem, hdi, hde]
    omega
  have hloop := simLoop_single cfg u contacts htpe htpi hu 9 cfg.max
    (by norm_num) hmax (simInit cfg u g)
    ((List.range cfg.N).getD (g 0 % (List.range cfg.N).length) 0) hinf hst
  have hsim : sim cfg u g contacts =
      simLoop cfg u contacts cfg.max (simInit cfg u g) := rfl
  have hcurve0 : (simInit cfg u g).curve = [1] := by
    show [(binnedSampleFlat g cfg.I cfg.N 0).1.length] = [1]
    rw [hinfL]
    rfl
  have htot0 : (simInit cfg u g).totinf = 1 := by
    show (binnedSampleFlat g cfg.I cfg.N 0).1.length = 1
    rw [hinfL]
    rfl
  have hever0 : (simInit cfg u g).ever =
      [(List.range cfg.N).getD (g 0 % (List.range cfg.N).length) 0] := hinfL
  refine ⟨?_, ?_, ?_, hloop.2.2.2⟩
  · rw [hsim, hloop.1, hcurve0]
    simp [List.replicate_succ]
  · rw [hsim, hloop.2.1]
    exact htot0
  · rw [hsim, hloop.2.2.1, hever0]
    rfl

/-- C7 (counterexample): the concrete single-case run with `tpe = tpi = 0`,
one initial infection, `di = 5`, `de = 3`, `rp = 1` yields the curve
`[1,1,1,1,1,1,1,1,1,0]` — nine nonzero entries (the day-0 snapshot at
`state = di+de+1` plus the `de + di = 8` countdown days), not exactly eight
as the claim states; `totinf = 1` as claimed. -/
theorem C7_counterexample :
    (sim cfgC7 uHalf gZero noContacts).curve =
      [1, 1, 1, 1, 1, 1, 1, 1, 1, 0] ∧
    ((sim cfgC7 uHalf gZero noContacts).curve.filter
      (fun n => n ≠ 0)).length = 9 ∧
    (sim cfgC7 uHalf gZero noContacts).totinf = 1 := by
  obtain ⟨h1, h2, h3, h4⟩ := single_case_run cfgC7 uHalf gZero noContacts rfl
    rfl rfl rfl rfl (by decide) (by decide) (fun _ => by norm_num [uHalf])
  refine ⟨?_, ?_, h2⟩
  · rw [h1]
    rfl
  · rw [h1]
    rfl

/-- C7 (amended): for the configuration `tpe = tpi = 0`, exactly one
initially infected agent, `di = 5`, `de = 3`, `rp = 1.0`, `max ≥ 9`, and any
run whose uniform draws are strictly positive (a Bernoulli trial at rate `0`
succeeds only on a draw of exactly `0`), the run is a single-case epidemic
whose curve shows exactly `de + di + 1 = 9` nonzero entries — the day-0
snapshot plus the 8 countdown days — before extinguishing to `0`, with
`totinf = 1` and zero reinfections. -/
theorem C7_single_case_nine_days (cfg : Config) (u : ℕ → ℚ) (g : ℕ → ℕ)
    (contacts : ℕ → List ℕ) (htpe : cfg.tpe = 0) (htpi : cfg.tpi = 0)
    (_hrp : cfg.rp = 1) (hI : cfg.I = 1) (hdi : cfg.di = 5) (hde : cfg.de = 3)
    (hN : 1 ≤ cfg.N) (hmax : 9 ≤ cfg.max) (hu : ∀ n, 0 < u n) :
    SingleCaseClaim cfg u g contacts := by
  obtain ⟨h1, h2, h3, h4⟩ := single_case_run cfg u g contacts htpe htpi hI
    hdi hde hN hmax hu
  exact ⟨h1, h2, h3, by omega, h4⟩

/-- C7 witness: the amended theorem applied to the concrete scenario
configuration and the constant stream of draws `1/2`. -/
theorem C7_witness : SingleCaseClaim cfgC7 uHalf gZero noContacts :=
  C7_single_case_nine_days cfgC7 uHalf gZero noContacts rfl rfl rfl rfl rfl
    rfl (by decide) (by decide) (fun _ => by norm_num [uHalf])

end DiseaseSim
